import Mathlib

/-!
# my-space-diary sync engine: record store, engine glue, identity and sessions

A shallow embedding of the Go sources under `sync-engine/` and the properties of
the synchronisation plane that hold (or fail) on them.

Conventions of the embedding.

* A Go `map[string]V` is the list of its entries, keys distinct; the order of the
  list stands for one iteration order of the map.
* `time.Time` is the number of nanoseconds since the Unix epoch; every call that
  reads `time.Now()` takes the reading as an argument `now`.
* `sync.RWMutex` is a flag telling whether the exclusive lock is held.  A call
  that has to wait for a lock held by its own goroutine never returns; such a
  call has result `none`.
* Callbacks are functions of the record, of the store as it is while they run,
  and of the state `ω` of whoever registered them.
-/

namespace MySpaceSync

/-! ## Data model (`pkg/storage`) -/

/-- An instant of `time.Time`, as nanoseconds since the Unix epoch. -/
structure Time where
  nanos : Int
deriving DecidableEq, Repr

/-- Two's-complement wrap of an integer into the range of `int64`. -/
def toInt64 (x : Int) : Int := (x + 2 ^ 63) % 2 ^ 64 - 2 ^ 63

/-- The method `Time.UnixNano`: nanoseconds since the epoch as an `int64`. -/
def Time.UnixNano (t : Time) : Int := toInt64 t.nanos

/-- A `map[string]interface{}`: entries of key and JSON text of the value. -/
abbrev JsonMap := List (String × String)

/-- The struct `Record` of `pkg/storage`. -/
structure Record where
  ID : String
  Table : String
  Data : JsonMap
  Version : Int
  CreatedAt : Time
  UpdatedAt : Time
  DeletedAt : Option Time
deriving DecidableEq, Repr

/-- The errors built by `fmt.Errorf` in the store, by message. -/
inductive StorageError where
  | alreadyExists (table id : String)
  | notFound (table id : String)
deriving DecidableEq, Repr

/-- The struct `MemoryStorageManager`: the map `records` and whether `recordsMux`
is held exclusively.  The callback list is an argument of each mutation. -/
structure MemoryStorageManager where
  records : List (String × Record)
  recordsMux : Bool
deriving DecidableEq, Repr

/-- The result of `NewMemoryStorageManager`. -/
def NewMemoryStorageManager : MemoryStorageManager := ⟨[], false⟩

/-- Map read `m[key]` with the comma-ok flag as an option. -/
def mapGet {K : Type} [DecidableEq K] {V : Type} : List (K × V) → K → Option V
  | [], _ => none
  | (k, v) :: m, key => if k = key then some v else mapGet m key

/-- Map write `m[key] = v`. -/
def mapSet {K : Type} [DecidableEq K] {V : Type} : List (K × V) → K → V → List (K × V)
  | [], key, v => [(key, v)]
  | (k, r) :: m, key, v => if k = key then (key, v) :: m else (k, r) :: mapSet m key v

/-- Map removal `delete(m, key)`. -/
def mapDelete {K : Type} [DecidableEq K] {V : Type} : List (K × V) → K → List (K × V)
  | [], _ => []
  | (k, r) :: m, key => if k = key then m else (k, r) :: mapDelete m key

/-- The key `fmt.Sprintf("%s:%s", table, id)`. -/
def recordKey (table id : String) : String := table ++ ":" ++ id

/-- The copy loop `for k, v := range record.Data { recordCopy.Data[k] = v }`. -/
def copyData (d : JsonMap) : JsonMap := d.foldr (fun kv acc => kv :: acc) []

/-- A store callback: `none` when the callback never returns. -/
abbrev Callback (ω : Type) := Record → MemoryStorageManager → ω → Option ω

/-- What a call leaves behind: the store, the subscribers' state, and the value
returned (`none` when the call never returns to its caller). -/
structure Outcome (ω α : Type) where
  sm : MemoryStorageManager
  world : ω
  ret : Option α

/-- The loop `for _, callback := range sm.callbacks { callback(record) }`; the flag
tells whether every callback returned. -/
def runCallbacks {ω : Type} : List (Callback ω) → Record → MemoryStorageManager → ω → ω × Bool
  | [], _, _, w => (w, true)
  | cb :: rest, record, sm, w =>
    match cb record sm w with
    | none => (w, false)
    | some w' => runCallbacks rest record sm w'

/-- The method `MemoryStorageManager.CreateRecord`. -/
def CreateRecord {ω : Type} (callbacks : List (Callback ω)) (sm : MemoryStorageManager)
    (now : Time) (table id : String) (data : JsonMap) (w : ω) :
    Outcome ω (Except StorageError Record) :=
  if sm.recordsMux then ⟨sm, w, none⟩
  else
    let version := now.UnixNano
    let key := recordKey table id
    match mapGet sm.records key with
    | some _ => ⟨sm, w, some (.error (.alreadyExists table id))⟩
    | none =>
      let record : Record :=
        { ID := id, Table := table, Data := data, Version := version,
          CreatedAt := now, UpdatedAt := now, DeletedAt := none }
      let held : MemoryStorageManager := ⟨mapSet sm.records key record, true⟩
      match runCallbacks callbacks record held w with
      | (w', true) => ⟨⟨held.records, false⟩, w', some (.ok record)⟩
      | (w', false) => ⟨held, w', none⟩

/-- The method `MemoryStorageManager.UpdateRecord`. -/
def UpdateRecord {ω : Type} (callbacks : List (Callback ω)) (sm : MemoryStorageManager)
    (now : Time) (table id : String) (data : JsonMap) (w : ω) :
    Outcome ω (Except StorageError Record) :=
  if sm.recordsMux then ⟨sm, w, none⟩
  else
    let key := recordKey table id
    match mapGet sm.records key with
    | none => ⟨sm, w, some (.error (.notFound table id))⟩
    | some existing =>
      if existing.DeletedAt.isSome then ⟨sm, w, some (.error (.notFound table id))⟩
      else
        let version := now.UnixNano
        let record : Record :=
          { ID := id, Table := table, Data := data, Version := version,
            CreatedAt := existing.CreatedAt, UpdatedAt := now, DeletedAt := none }
        let held : MemoryStorageManager := ⟨mapSet sm.records key record, true⟩
        match runCallbacks callbacks record held w with
        | (w', true) => ⟨⟨held.records, false⟩, w', some (.ok record)⟩
        | (w', false) => ⟨held, w', none⟩

/-- The method `MemoryStorageManager.DeleteRecord` (soft delete). -/
def DeleteRecord {ω : Type} (callbacks : List (Callback ω)) (sm : MemoryStorageManager)
    (now : Time) (table id : String) (w : ω) : Outcome ω (Except StorageError Unit) :=
  if sm.recordsMux then ⟨sm, w, none⟩
  else
    let key := recordKey table id
    match mapGet sm.records key with
    | none => ⟨sm, w, some (.error (.notFound table id))⟩
    | some existing =>
      if existing.DeletedAt.isSome then ⟨sm, w, some (.error (.notFound table id))⟩
      else
        let record : Record :=
          { ID := id, Table := table, Data := [], Version := now.UnixNano,
            CreatedAt := existing.CreatedAt, UpdatedAt := now, DeletedAt := some now }
        let held : MemoryStorageManager := ⟨mapSet sm.records key record, true⟩
        match runCallbacks callbacks record held w with
        | (w', true) => ⟨⟨held.records, false⟩, w', some (.ok ())⟩
        | (w', false) => ⟨held, w', none⟩

/-- The method `MemoryStorageManager.GetRecord`: `none` when `RLock` has to wait for
the exclusive lock. -/
def GetRecord (sm : MemoryStorageManager) (table id : String) :
    Option (Except StorageError Record) :=
  if sm.recordsMux then none
  else
    match mapGet sm.records (recordKey table id) with
    | none => some (.error (.notFound table id))
    | some record => some (.ok { record with Data := copyData record.Data })

/-- The method `MemoryStorageManager.GetAllRecords`: the live records of the table, copied,
in the iteration order of the map; `none` when `RLock` has to wait. -/
def GetAllRecords (sm : MemoryStorageManager) (table : String) : Option (List Record) :=
  if sm.recordsMux then none
  else
    some (sm.records.filterMap fun p =>
      if p.2.Table = table ∧ p.2.DeletedAt = none then
        some { p.2 with Data := copyData p.2.Data }
      else none)

/-- The method `MemoryStorageManager.GetRecordsSinceVersion`: the records of the table,
tombstones included, of a version above `sinceVersion`, copied, in the iteration order of
the map; `none` when `RLock` has to wait. -/
def GetRecordsSinceVersion (sm : MemoryStorageManager) (table : String) (sinceVersion : Int) :
    Option (List Record) :=
  if sm.recordsMux then none
  else
    some (sm.records.filterMap fun p =>
      if p.2.Table = table ∧ p.2.Version > sinceVersion then
        some { p.2 with Data := copyData p.2.Data }
      else none)

/-- The method `MemoryStorageManager.AddCallback`. -/
def AddCallback {ω : Type} (callbacks : List (Callback ω)) (callback : Callback ω) :
    List (Callback ω) :=
  callbacks ++ [callback]

/-- The record `CreateRecord` builds. -/
def createdRecord (now : Time) (table id : String) (data : JsonMap) : Record :=
  { ID := id, Table := table, Data := data, Version := now.UnixNano,
    CreatedAt := now, UpdatedAt := now, DeletedAt := none }

/-- The record `UpdateRecord` builds over the record `existing`. -/
def updatedRecord (now : Time) (table id : String) (data : JsonMap) (existing : Record) :
    Record :=
  { ID := id, Table := table, Data := data, Version := now.UnixNano,
    CreatedAt := existing.CreatedAt, UpdatedAt := now, DeletedAt := none }

/-- The tombstone `DeleteRecord` builds over the record `existing`. -/
def tombstoneRecord (now : Time) (table id : String) (existing : Record) : Record :=
  { ID := id, Table := table, Data := [], Version := now.UnixNano,
    CreatedAt := existing.CreatedAt, UpdatedAt := now, DeletedAt := some now }

/-- Every callback of the list returns, whatever it is called with. -/
def AllReturn {ω : Type} (callbacks : List (Callback ω)) : Prop :=
  ∀ cb ∈ callbacks, ∀ (r : Record) (s : MemoryStorageManager) (w : ω), (cb r s w).isSome = true

/-- The invariant of the map of a store: no key occurs twice, and every record sits under
the key built from its own table and id. -/
def StoreInv (recs : List (String × Record)) : Prop :=
  (recs.map Prod.fst).Nodup ∧ ∀ p ∈ recs, p.1 = recordKey p.2.Table p.2.ID

/-- A call of one of the three mutations of the store. -/
inductive StoreCall where
  | create (table id : String) (data : JsonMap)
  | update (table id : String) (data : JsonMap)
  | delete (table id : String)
deriving DecidableEq, Repr

/-- The key of the record a call addresses. -/
def StoreCall.key : StoreCall → String
  | .create table id _ => recordKey table id
  | .update table id _ => recordKey table id
  | .delete table id => recordKey table id

/-- Make a call at clock reading `now`; of the value returned, only whether it is an
error is kept. -/
def StoreCall.run {ω : Type} (callbacks : List (Callback ω)) (sm : MemoryStorageManager)
    (now : Time) (c : StoreCall) (w : ω) : Outcome ω (Except StorageError Unit) :=
  match c with
  | .create table id data =>
    let o := CreateRecord callbacks sm now table id data w
    ⟨o.sm, o.world, o.ret.map fun r => r.map fun _ => ()⟩
  | .update table id data =>
    let o := UpdateRecord callbacks sm now table id data w
    ⟨o.sm, o.world, o.ret.map fun r => r.map fun _ => ()⟩
  | .delete table id => DeleteRecord callbacks sm now table id w

/-- Successive calls on one store, each with the clock reading it gets. -/
def runCalls {ω : Type} (callbacks : List (Callback ω)) :
    List (StoreCall × Time) → MemoryStorageManager → ω → MemoryStorageManager × ω
  | [], sm, w => (sm, w)
  | (c, now) :: rest, sm, w =>
    runCalls callbacks rest (c.run callbacks sm now w).sm (c.run callbacks sm now w).world

/-- For the calls of a sequence that return without error, in call order: the clock
reading of the call and the version of the record stored under its key when it returns. -/
def versionTrace {ω : Type} (callbacks : List (Callback ω)) :
    List (StoreCall × Time) → MemoryStorageManager → ω → List (Time × Int)
  | [], _, _ => []
  | (c, now) :: rest, sm, w =>
    match (c.run callbacks sm now w).ret, mapGet (c.run callbacks sm now w).sm.records c.key with
    | some (.ok _), some r =>
      (now, r.Version) ::
        versionTrace callbacks rest (c.run callbacks sm now w).sm (c.run callbacks sm now w).world
    | _, _ =>
      versionTrace callbacks rest (c.run callbacks sm now w).sm (c.run callbacks sm now w).world

/-- A callback that, besides running, notes its registration number and the record it is
called with. -/
def traced {ω : Type} (n : Nat) (callback : Callback ω) :
    Callback (ω × List (Nat × Record)) :=
  fun record sm w => (callback record sm w.1).map fun w' => (w', w.2 ++ [(n, record)])

/-- The callbacks of a list, each noting its position in the list counted from `n`. -/
def tracedFrom {ω : Type} : List (Callback ω) → Nat → List (Callback (ω × List (Nat × Record)))
  | [], _ => []
  | callback :: rest, n => traced n callback :: tracedFrom rest (n + 1)

/-! ## Engine glue (`cmd/server/main.go`) -/

/-- The struct `SyncData` of `pkg/sync`. -/
structure SyncData where
  Operation : String
  Table : String
  RecordID : String
  Data : JsonMap
  Version : Int
deriving DecidableEq, Repr

/-- The method `SyncManager.BroadcastSync`, recorded as the list of the payloads it
was called with, oldest first. -/
def BroadcastSync (sent : List SyncData) (data : SyncData) : List SyncData := sent ++ [data]

/-- The method `SyncEngine.handleStorageChange`, the store callback registered by
`setupCallbacks`. -/
def handleStorageChange : Callback (List SyncData) := fun record sm sent =>
  let send (operation : String) : Option (List SyncData) :=
    some (BroadcastSync sent
      { Operation := operation, Table := record.Table, RecordID := record.ID,
        Data := record.Data, Version := record.Version })
  if record.DeletedAt.isSome then send "delete"
  else
    match GetRecord sm record.Table record.ID with
    | none => none
    | some (.error _) => send "create"
    | some (.ok existing) =>
      if existing.Version < record.Version then send "update" else some sent

/-- The store callbacks of the engine after `setupCallbacks`. -/
def engineCallbacks : List (Callback (List SyncData)) := [handleStorageChange]

/-- Forget the value a store call returned, keeping whether it returned. -/
def Outcome.discard {ω α : Type} (o : Outcome ω α) : Outcome ω Unit :=
  ⟨o.sm, o.world, o.ret.map (fun _ => ())⟩

/-- The method `SyncEngine.handleSyncData`, the sync callback registered by
`setupCallbacks`; errors of the store are logged only. -/
def SyncEngine.handleSyncData (sm : MemoryStorageManager) (now : Time) (syncData : SyncData)
    (sent : List SyncData) : Outcome (List SyncData) Unit :=
  if syncData.Operation = "create" then
    (CreateRecord engineCallbacks sm now syncData.Table syncData.RecordID syncData.Data
      sent).discard
  else if syncData.Operation = "update" then
    (UpdateRecord engineCallbacks sm now syncData.Table syncData.RecordID syncData.Data
      sent).discard
  else if syncData.Operation = "delete" then
    (DeleteRecord engineCallbacks sm now syncData.Table syncData.RecordID sent).discard
  else ⟨sm, sent, some ()⟩

/-! ## Identity and device assertions (`pkg/crypto/identity.go`)

`ed25519.Sign`, `ed25519.Verify` and `sha256.Sum256` are arguments of the functions that
call them.  A message to sign is kept as the string whose bytes are signed. -/

/-- A byte slice. -/
abbrev Bytes := List (Fin 256)

/-- The alphabet of `encoding/hex`. -/
def hextable : String := "0123456789abcdef"

/-- The character `hextable[n]`. -/
def hexDigit (n : Nat) : Char := hextable.toList.getD n '0'

/-- The function `hex.EncodeToString`: two lowercase digits per byte. -/
def EncodeToString (src : Bytes) : String :=
  String.mk (src.flatMap fun v => [hexDigit (v.val / 16), hexDigit (v.val % 16)])

/-- The value of one hex digit, upper or lower case, as `encoding/hex` reads it. -/
def fromHexChar (c : Char) : Option Nat :=
  if '0' ≤ c ∧ c ≤ '9' then some (c.toNat - '0'.toNat)
  else if 'a' ≤ c ∧ c ≤ 'f' then some (c.toNat - 'a'.toNat + 10)
  else if 'A' ≤ c ∧ c ≤ 'F' then some (c.toNat - 'A'.toNat + 10)
  else none

/-- The decoding loop of `encoding/hex`: `none` for a character that is no hex digit and
for an odd number of characters. -/
def decodePairs : List Char → Option Bytes
  | [] => some []
  | [_] => none
  | p :: q :: rest =>
    match fromHexChar p, fromHexChar q with
    | some a, some b =>
      (decodePairs rest).map
        (fun bs => (⟨(a * 16 + b) % 256, Nat.mod_lt _ (by decide)⟩ : Fin 256) :: bs)
    | _, _ => none

/-- The function `hex.DecodeString`, `none` when it returns an error. -/
def DecodeString (s : String) : Option Bytes := decodePairs s.toList

/-- The decimal digit `d` as a character. -/
def digitChar (d : Nat) : Char := Char.ofNat (d + 48)

/-- The digits of `n`, most significant first, put in front of `acc`. -/
def decimalAux : Nat → Nat → List Char → List Char
  | 0, _, acc => acc
  | fuel + 1, n, acc =>
    if n < 10 then digitChar n :: acc
    else decimalAux fuel (n / 10) (digitChar (n % 10) :: acc)

/-- The decimal numeral of a natural number. -/
def decimal (n : Nat) : List Char := decimalAux (n + 1) n []

/-- The verb `%d` of `fmt.Sprintf` on an `int64`. -/
def formatInt (n : Int) : String :=
  if n < 0 then String.mk ('-' :: decimal n.natAbs) else String.mk (decimal n.natAbs)

/-- The string `fmt.Sprintf("%s|%s|%d", accountID, deviceName, timestamp)`. -/
def canonicalString (accountID deviceName : String) (timestamp : Int) : String :=
  accountID ++ "|" ++ deviceName ++ "|" ++ formatInt timestamp

/-- The struct `Identity`. -/
structure Identity where
  PrivateKey : Bytes
  PublicKey : Bytes
  AccountID : String
deriving DecidableEq, Repr

/-- The struct `DeviceInfo`, the handshake assertion. -/
structure DeviceInfo where
  AccountID : String
  PublicKey : String
  DeviceName : String
  Timestamp : Int
  Signature : String
deriving DecidableEq, Repr

/-- The constants `ed25519.PublicKeySize` and `ed25519.PrivateKeySize`. -/
def PublicKeySize : Nat := 32

def PrivateKeySize : Nat := 64

/-- The function `NewIdentity`, given the key pair that `ed25519.GenerateKey` returned. -/
def NewIdentity (sha256 : Bytes → Bytes) (publicKey privateKey : Bytes) : Identity :=
  { PrivateKey := privateKey, PublicKey := publicKey,
    AccountID := EncodeToString (sha256 publicKey) }

/-- The function `getCurrentTimestamp`: a constant. -/
def getCurrentTimestamp : Int := 1642123456

/-- The method `Identity.CreateDeviceInfo`; `none` when `ed25519.Sign` panics on a private
key of the wrong size. -/
def CreateDeviceInfo (sign : Bytes → String → Bytes) (i : Identity) (deviceName : String) :
    Option DeviceInfo :=
  let timestamp := getCurrentTimestamp
  let dataToSign := canonicalString i.AccountID deviceName timestamp
  if i.PrivateKey.length ≠ PrivateKeySize then none
  else
    let signature := sign i.PrivateKey dataToSign
    some { AccountID := i.AccountID, PublicKey := EncodeToString i.PublicKey,
           DeviceName := deviceName, Timestamp := timestamp,
           Signature := EncodeToString signature }

/-- The errors of `VerifyDeviceInfo`, by message. -/
inductive VerifyError where
  | decodePublicKey
  | publicKeySize
  | decodeSignature
  | invalidSignature
  | accountIDMismatch
deriving DecidableEq, Repr

/-- The function `VerifyDeviceInfo`. -/
def VerifyDeviceInfo (verify : Bytes → String → Bytes → Bool) (sha256 : Bytes → Bytes)
    (info : DeviceInfo) : Except VerifyError Unit :=
  match DecodeString info.PublicKey with
  | none => .error .decodePublicKey
  | some publicKey =>
    if publicKey.length ≠ PublicKeySize then .error .publicKeySize
    else
      match DecodeString info.Signature with
      | none => .error .decodeSignature
      | some signature =>
        let dataToVerify := canonicalString info.AccountID info.DeviceName info.Timestamp
        if !verify publicKey dataToVerify signature then .error .invalidSignature
        else
          let expectedAccountID := EncodeToString (sha256 publicKey)
          if info.AccountID ≠ expectedAccountID then .error .accountIDMismatch
          else .ok ()

/-- The sync callback registered by `setupCallbacks`, which runs `handleSyncData` of the
engine; `now` is the clock reading the store takes during the call. -/
def engineSyncCallback (now : Time) : SyncData → MemoryStorageManager × List SyncData →
    (MemoryStorageManager × List SyncData) × Bool :=
  fun syncData w =>
    let o := SyncEngine.handleSyncData w.1 now syncData w.2
    ((o.sm, o.world), o.ret.isSome)

/-! ## Sessions (`pkg/sync/websocket.go`)

`json.Unmarshal` of a frame and the conversion of a payload into `SyncData` are arguments
of the functions that call them. -/

/-- The struct `SyncMessage`; `MsgType` is the field `Type`, `Data` the JSON text of the
payload. -/
structure SyncMessage where
  MsgType : String
  AccountID : String
  Data : String
  Timestamp : Int
  Signature : String
deriving DecidableEq, Repr

/-- The struct `SyncConnection`; `conn` names the underlying connection. -/
structure SyncConnection where
  conn : Nat
  accountID : String
  deviceName : String
  lastSeen : Time
deriving DecidableEq, Repr

/-- The struct `SyncManager`: the connection map and the account of this device.  The
callback list is an argument of the functions that run it. -/
structure SyncManager where
  connections : List (String × SyncConnection)
  accountID : String
  privateKey : String
deriving DecidableEq, Repr

/-- The function `NewSyncManager`. -/
def NewSyncManager (accountID privateKey : String) : SyncManager :=
  { connections := [], accountID := accountID, privateKey := privateKey }

/-- What `conn.ReadMessage()` returns: an error or the bytes of a frame. -/
inductive ReadResult where
  | error
  | message (bytes : String)
deriving DecidableEq, Repr

/-- A sync callback: the state it leaves and whether it returned. -/
abbrev SyncCallback (ω : Type) := SyncData → ω → ω × Bool

/-- The loop `for _, callback := range sm.callbacks { callback(&syncData) }`; the flag
tells whether every callback returned. -/
def runSyncCallbacks {ω : Type} : List (SyncCallback ω) → SyncData → ω → ω × Bool
  | [], _, w => (w, true)
  | cb :: rest, d, w =>
    match cb d w with
    | (w', false) => (w', false)
    | (w', true) => runSyncCallbacks rest d w'

/-- The method `SyncManager.handleSyncData`: a payload that is no `SyncData` is logged and
dropped. -/
def SyncManager.handleSyncData {ω : Type} (asSyncData : String → Option SyncData)
    (callbacks : List (SyncCallback ω)) (msg : SyncMessage) (w : ω) : ω × Bool :=
  match asSyncData msg.Data with
  | none => (w, true)
  | some syncData => runSyncCallbacks callbacks syncData w

/-- One turn of the loop of `handleConnection`. -/
inductive LoopStep (ω : Type) where
  | next (w : ω) (lastSeen : Time)
  | stop
  | stuck (w : ω)

/-- The body of the loop of `SyncManager.handleConnection` for one result of
`ReadMessage`, read at clock reading `now`. -/
def handleConnectionStep {ω : Type} (accountID : String)
    (unmarshal : String → Option SyncMessage) (asSyncData : String → Option SyncData)
    (callbacks : List (SyncCallback ω)) (r : ReadResult) (now : Time) (w : ω)
    (lastSeen : Time) : LoopStep ω :=
  match r with
  | .error => .stop
  | .message bytes =>
    match unmarshal bytes with
    | none => .next w lastSeen
    | some syncMsg =>
      if syncMsg.AccountID ≠ accountID then .next w lastSeen
      else if syncMsg.MsgType = "sync_data" then
        match SyncManager.handleSyncData asSyncData callbacks syncMsg w with
        | (w', false) => .stuck w'
        | (w', true) => .next w' now
      else .next w now

/-- Where a read loop is after the reads it was given. -/
inductive LoopStatus where
  | reading
  | closed
  | stuck
deriving DecidableEq, Repr

/-- What `handleConnection` leaves behind. -/
structure ConnectionOutcome (ω : Type) where
  connections : List (String × SyncConnection)
  world : ω
  lastSeen : Time
  status : LoopStatus

/-- The method `SyncManager.handleConnection` on the results of its successive reads, each
with the clock reading at that turn.  When the loop ends, the deferred function closes the
connection and deletes the entry under the account id of the session. -/
def handleConnection {ω : Type} (accountID : String)
    (unmarshal : String → Option SyncMessage) (asSyncData : String → Option SyncData)
    (callbacks : List (SyncCallback ω)) (syncConn : SyncConnection) :
    List (ReadResult × Time) → List (String × SyncConnection) → ω → Time →
      ConnectionOutcome ω
  | [], connections, w, lastSeen => ⟨connections, w, lastSeen, .reading⟩
  | (r, now) :: rest, connections, w, lastSeen =>
    match handleConnectionStep accountID unmarshal asSyncData callbacks r now w lastSeen with
    | .stop => ⟨mapDelete connections syncConn.accountID, w, lastSeen, .closed⟩
    | .stuck w' => ⟨connections, w', lastSeen, .stuck⟩
    | .next w' lastSeen' =>
      handleConnection accountID unmarshal asSyncData callbacks syncConn rest connections w'
        lastSeen'

/-- The method `Time.Unix`: whole seconds since the epoch. -/
def Time.Unix (t : Time) : Int := toInt64 (t.nanos / 1000000000)

/-- The errors of `performHandshake`, by message. -/
inductive HandshakeError where
  | readMessage
  | unmarshal
  | expectedHandshake (got : String)
  | invalidSignature
  | sendResponse
deriving DecidableEq, Repr

/-- The method `SyncManager.verifyHandshakeSignature`. -/
def verifyHandshakeSignature (_msg : SyncMessage) : Bool := true

/-- What `performHandshake` leaves behind: the frames handed to `conn.WriteMessage` and
the account id or error returned. -/
structure HandshakeOutcome where
  written : List SyncMessage
  result : Except HandshakeError String

/-- The method `SyncManager.performHandshake` on the result of its read; `writeOk` tells
whether `conn.WriteMessage` succeeds. -/
def performHandshake (accountID : String) (unmarshal : String → Option SyncMessage)
    (first : ReadResult) (writeOk : Bool) (now : Time) : HandshakeOutcome :=
  match first with
  | .error => ⟨[], .error .readMessage⟩
  | .message bytes =>
    match unmarshal bytes with
    | none => ⟨[], .error .unmarshal⟩
    | some handshakeMsg =>
      if handshakeMsg.MsgType ≠ "handshake" then
        ⟨[], .error (.expectedHandshake handshakeMsg.MsgType)⟩
      else if !verifyHandshakeSignature handshakeMsg then ⟨[], .error .invalidSignature⟩
      else
        let response : SyncMessage :=
          { MsgType := "handshake_response", AccountID := accountID, Data := "null",
            Timestamp := now.Unix, Signature := "" }
        if writeOk then ⟨[response], .ok handshakeMsg.AccountID⟩
        else ⟨[response], .error .sendResponse⟩

/-- What `handleWebSocket` leaves behind: the manager, the frames written on the
connection, and whether the connection was closed. -/
structure AcceptOutcome where
  sm : SyncManager
  written : List SyncMessage
  closed : Bool

/-- The method `SyncManager.handleWebSocket` for an upgraded connection `conn`, up to the
start of the read loop. -/
def handleWebSocket (sm : SyncManager) (unmarshal : String → Option SyncMessage)
    (conn : Nat) (first : ReadResult) (writeOk : Bool) (now : Time) : AcceptOutcome :=
  let h := performHandshake sm.accountID unmarshal first writeOk now
  match h.result with
  | .error _ => ⟨sm, h.written, true⟩
  | .ok accountID =>
    let syncConn : SyncConnection :=
      { conn := conn, accountID := accountID, deviceName := "", lastSeen := now }
    ⟨{ sm with connections := mapSet sm.connections accountID syncConn }, h.written, false⟩

/-- The method `SyncManager.ConnectToDevice`; `dialed` is the connection `dialer.Dial`
returned, `none` when it failed.  Up to the start of the read loop. -/
def ConnectToDevice (sm : SyncManager) (dialed : Option Nat) (accountID : String)
    (now : Time) : SyncManager :=
  match dialed with
  | none => sm
  | some conn =>
    let syncConn : SyncConnection :=
      { conn := conn, accountID := accountID, deviceName := "", lastSeen := now }
    { sm with connections := mapSet sm.connections accountID syncConn }

/-! ## Discovery (`pkg/discovery/mdns.go`)

The source takes lengths and slices of TXT strings by bytes.  In this part a Go string that
is measured, sliced or compared is the sequence of its bytes; `bytes` gives the bytes of a
string literal. -/

/-- The byte of value `n` modulo 256. -/
def byte (n : Nat) : Fin 256 := ⟨n % 256, Nat.mod_lt _ (by decide)⟩

/-- The UTF-8 encoding of a character. -/
def utf8Char (c : Char) : Bytes :=
  if c.toNat < 128 then [byte c.toNat]
  else if c.toNat < 2048 then [byte (192 + c.toNat / 64), byte (128 + c.toNat % 64)]
  else if c.toNat < 65536 then
    [byte (224 + c.toNat / 4096), byte (128 + c.toNat / 64 % 64), byte (128 + c.toNat % 64)]
  else
    [byte (240 + c.toNat / 262144), byte (128 + c.toNat / 4096 % 64),
      byte (128 + c.toNat / 64 % 64), byte (128 + c.toNat % 64)]

/-- The bytes of a string, the conversion `[]byte(s)`. -/
def bytes (s : String) : Bytes := s.toList.flatMap utf8Char

/-- The fields of `zeroconf.ServiceEntry` that `handleServiceEntry` reads; an address is a
byte slice, a TXT string the sequence of its bytes. -/
structure ServiceEntry where
  Service : String
  Port : Int
  Text : List Bytes
  AddrIPv4 : List Bytes
  AddrIPv6 : List Bytes
deriving DecidableEq, Repr

/-- The struct `Device`; the account id is the sequence of its bytes. -/
structure Device where
  Name : String
  IP : Bytes
  Port : Int
  AccountID : Bytes
  Text : List Bytes
deriving DecidableEq, Repr

/-- The struct `DiscoveryManager`: the device map and the values of this device, as byte
sequences.  The callback list is an argument of `handleServiceEntry`. -/
structure DiscoveryManager where
  devices : List (Bytes × Device)
  accountID : Bytes
  deviceName : Bytes
deriving DecidableEq, Repr

/-- The function `NewDiscoveryManager`. -/
def NewDiscoveryManager (accountID deviceName : Bytes) : DiscoveryManager :=
  { devices := [], accountID := accountID, deviceName := deviceName }

/-- The TXT strings that `DiscoveryManager.Start` registers. -/
def txtRecords (dm : DiscoveryManager) : List Bytes :=
  [bytes "account_id=" ++ dm.accountID, bytes "device_name=" ++ dm.deviceName,
    bytes "version=1.0"]

/-- The body of the loop over `entry.Text` for one string: the values of `accountID` and
`deviceName` after it.  `len(txt)`, `txt[:10]` and `txt[11:]` count bytes. -/
def scanTXT (vars : Bytes × Bytes) (txt : Bytes) : Bytes × Bytes :=
  let accountID :=
    if txt.length > 10 ∧ txt.take 10 = bytes "account_id" then txt.drop 11 else vars.1
  let deviceName :=
    if txt.length > 11 ∧ txt.take 11 = bytes "device_name" then txt.drop 12 else vars.2
  (accountID, deviceName)

/-- The loop over `entry.Text`: the account id and the device name extracted. -/
def extractTXT (text : List Bytes) : Bytes × Bytes := text.foldl scanTXT ([], [])

/-- A discovery callback. -/
abbrev DeviceCallback (ω : Type) := Device → ω → ω

/-- The method `DiscoveryManager.handleServiceEntry`. -/
def handleServiceEntry {ω : Type} (callbacks : List (DeviceCallback ω))
    (dm : DiscoveryManager) (entry : ServiceEntry) (w : ω) : DiscoveryManager × ω :=
  if entry.AddrIPv4.length = 0 ∧ entry.AddrIPv6.length = 0 then (dm, w)
  else
    let first : Option Bytes :=
      match entry.AddrIPv4, entry.AddrIPv6 with
      | ip :: _, _ => some ip
      | [], ip :: _ => some ip
      | [], [] => none
    match first with
    | none => (dm, w)
    | some ip =>
      let accountID := (extractTXT entry.Text).1
      let deviceName := (extractTXT entry.Text).2
      if accountID = [] then (dm, w)
      else if accountID = dm.accountID ∧ deviceName = dm.deviceName then (dm, w)
      else
        let device : Device :=
          { Name := entry.Service, IP := ip, Port := entry.Port, AccountID := accountID,
            Text := entry.Text }
        ({ dm with devices := mapSet dm.devices accountID device },
          callbacks.foldl (fun w' callback => callback device w') w)

/-- The device `handleServiceEntry` builds from an entry, the address chosen and the
account id extracted. -/
def discoveredDevice (entry : ServiceEntry) (ip : Bytes) (accountID : Bytes) : Device :=
  { Name := entry.Service, IP := ip, Port := entry.Port, AccountID := accountID,
    Text := entry.Text }

/-- A discovery callback that notes its number and the device it is called with. -/
def deviceTracer (n : Nat) : DeviceCallback (List (Nat × Device)) :=
  fun device log => log ++ [(n, device)]

/-- The value of `key` in TXT strings read as `key=value` pairs, in the words of the
specification: the text after the first `=` (byte 61) of an entry whose key is exactly
`key`, the last such entry when there are several, and the empty string when there is
none. -/
def txtValue (key : Bytes) (text : List Bytes) : Bytes :=
  text.foldl (fun value txt =>
    if byte 61 ∈ txt ∧ txt.takeWhile (fun b => b ≠ byte 61) = key then
      (txt.dropWhile (fun b => b ≠ byte 61)).drop 1
    else value) []

/-! ## Concrete states used by the closed statements -/

/-- A 32-byte public key. -/
def demoPublicKey : Bytes := List.replicate 32 171

/-- A 64-byte private key whose second half is `demoPublicKey`. -/
def demoPrivateKey : Bytes := List.replicate 32 1 ++ demoPublicKey

/-- A stand-in for `sha256.Sum256` in closed statements. -/
def demoSha256 (b : Bytes) : Bytes := b.take 2

/-- A stand-in signature scheme in closed statements: the public half of the private key
followed by the length of the message modulo 256. -/
def demoSign (priv : Bytes) (msg : String) : Bytes :=
  priv.drop 32 ++ [⟨msg.length % 256, Nat.mod_lt _ (by decide)⟩]

/-- Verification for `demoSign`. -/
def demoVerify (pub : Bytes) (msg : String) (sig : Bytes) : Bool :=
  decide (sig = pub ++ [⟨msg.length % 256, Nat.mod_lt _ (by decide)⟩])

/-- Keys generated together under the stand-in scheme. -/
abbrev demoKeyPair (pub priv : Bytes) : Prop :=
  pub.length = 32 ∧ priv.length = 64 ∧ priv.drop 32 = pub

/-- An assertion with a lowercase public key, signed once with the signature `0102`. -/
def signedInfo : DeviceInfo :=
  { AccountID := "abab",
    PublicKey := "abababababababababababababababababababababababababababababababab",
    DeviceName := "alpha", Timestamp := 1642123456, Signature := "0102" }

/-- A stand-in verifier in closed statements that accepts one signature only: `0102`, for
`demoPublicKey` and the canonical string of `signedInfo`. -/
def oracleVerify (pub : Bytes) (msg : String) (sig : Bytes) : Bool :=
  decide (pub = demoPublicKey ∧ msg = "abab|alpha|1642123456" ∧ sig = [1, 2])

/-- The assertion `signedInfo` with the last byte of its signature changed. -/
def tamperedInfo : DeviceInfo := { signedInfo with Signature := "0103" }

/-- A handshake message that carries `tamperedInfo`. -/
def tamperedHandshake : SyncMessage :=
  { MsgType := "handshake", AccountID := "abab",
    Data := "\x7b\"account_id\":\"abab\",\"device_name\":\"alpha\",\"signature\":\"0103\"\x7d",
    Timestamp := 1642123456, Signature := "0103" }

/-- A `sync_data` message of another account that asks to delete `diary_entries/demo-1`. -/
def foreignMessage : SyncMessage :=
  { MsgType := "sync_data", AccountID := "ffff",
    Data := "delete diary_entries/demo-1", Timestamp := 1642123456, Signature := "" }

/-- A stand-in for `json.Unmarshal` in closed statements, defined on two frames. -/
def demoUnmarshal (bytes : String) : Option SyncMessage :=
  if bytes = "frame:tampered-handshake" then some tamperedHandshake
  else if bytes = "frame:foreign-delete" then some foreignMessage
  else none

/-- An identity as `LoadOrCreateIdentity` reads it from an `identity.json` that has a
matching key pair and no `account_id` entry. -/
def loadedIdentity : Identity :=
  { PrivateKey := demoPrivateKey, PublicKey := demoPublicKey, AccountID := "" }

/-- A live record of version 100 under `diary_entries/demo-1`. -/
def demoRecord : Record :=
  { ID := "demo-1", Table := "diary_entries", Data := [("title", "\"t\"")], Version := 100,
    CreatedAt := ⟨100⟩, UpdatedAt := ⟨100⟩, DeletedAt := none }

/-- A store that holds `demoRecord` only, no mutation in progress. -/
def demoStore : MemoryStorageManager := ⟨[("diary_entries:demo-1", demoRecord)], false⟩

/-- An inbound delete of `diary_entries/demo-1` that carries the older version 50. -/
def staleDelete : SyncData :=
  { Operation := "delete", Table := "diary_entries", RecordID := "demo-1", Data := [],
    Version := 50 }

/-- An inbound create of `diary_entries/demo-1` that carries the newer version 200. -/
def newerCreate : SyncData :=
  { Operation := "create", Table := "diary_entries", RecordID := "demo-1",
    Data := [("title", "\"t2\"")], Version := 200 }

/-- An inbound delete of `diary_entries/demo-1` whose version equals the clock reading
1000 of the receiving device. -/
def sameClockDelete : SyncData :=
  { Operation := "delete", Table := "diary_entries", RecordID := "demo-1", Data := [],
    Version := 1000 }

/-- A stand-in for the conversion of a payload into `SyncData` in closed statements. -/
def demoAsSyncData (data : String) : Option SyncData :=
  if data = "delete diary_entries/demo-1" then some staleDelete else none

/-- This device: `alpha` of the account `abab`. -/
def thisDevice : DiscoveryManager := NewDiscoveryManager (bytes "abab") (bytes "alpha")

/-- A service entry of another device of the account `abab`. -/
def peerEntry : ServiceEntry :=
  { Service := "_myspace-sync._tcp", Port := 8080,
    Text := [bytes "account_id=abab", bytes "device_name=beta", bytes "version=1.0"],
    AddrIPv4 := [[192, 168, 1, 7]], AddrIPv6 := [] }

/-- The service entry this device (`alpha` of account `abab`) announces itself with. -/
def selfEntry : ServiceEntry :=
  { peerEntry with
    Text := [bytes "account_id=abab", bytes "device_name=alpha", bytes "version=1.0"] }

/-- A service entry whose only TXT string has the key `account_idX`. -/
def strayKeyEntry : ServiceEntry := { peerEntry with Text := [bytes "account_idX=foo"] }

/-- A service entry with the account id and the device name of this device, and a third
TXT string of key `device_names`. -/
def ownEntryWithStrayKey : ServiceEntry :=
  { peerEntry with
    Text := [bytes "account_id=abab", bytes "device_name=alpha", bytes "device_names=beta"] }

/-- Three calls on `diary_entries`: create `a` at 100, create `b` at 200, update `a` at
300. -/
def threeCalls : List (StoreCall × Time) :=
  [(.create "diary_entries" "a" [], ⟨100⟩), (.create "diary_entries" "b" [], ⟨200⟩),
   (.update "diary_entries" "a" [("n", "1")], ⟨300⟩)]

/-- A create at clock reading 1000 followed by an update of the same record at the earlier
reading 500. -/
def clockStepsBack : List (StoreCall × Time) :=
  [(.create "diary_entries" "demo-1" [], ⟨1000⟩),
   (.update "diary_entries" "demo-1" [("n", "1")], ⟨500⟩)]

/-- The create of `diary_entries/demo-1` at clock reading 100. -/
def createDemo : List (StoreCall × Time) :=
  [(.create "diary_entries" "demo-1" [("title", "\"t\"")], ⟨100⟩)]

/-- Calls that try to bring `diary_entries/demo-1` back, and a create of `demo-2`. -/
def reviveCalls : List (StoreCall × Time) :=
  [(.create "diary_entries" "demo-1" [("title", "\"again\"")], ⟨300⟩),
   (.update "diary_entries" "demo-1" [("title", "\"again\"")], ⟨400⟩),
   (.delete "diary_entries" "demo-1", ⟨500⟩),
   (.create "diary_entries" "demo-2" [], ⟨600⟩)]

/-- The create of the record of id `c` in the table `a:b`, at clock reading 100. -/
def colonCreate : List (StoreCall × Time) :=
  [(.create "a:b" "c" [("n", "1")], ⟨100⟩)]

/-- The store after the create of (`a:b`, `c`) on the empty store. -/
def colonStore : MemoryStorageManager :=
  (runCalls ([] : List (Callback Unit)) colonCreate NewMemoryStorageManager ()).1

/-- Two callbacks that return: one counts, one doubles. -/
def demoCallbacks : List (Callback Nat) :=
  [fun _ _ n => some (n + 1), fun _ _ n => some (2 * n)]

/-- A session of the account `abab` on connection 1. -/
def priorSession : SyncConnection :=
  { conn := 1, accountID := "abab", deviceName := "", lastSeen := ⟨1000⟩ }

/-- A later session of the same account on connection 2. -/
def newerSession : SyncConnection :=
  { conn := 2, accountID := "abab", deviceName := "", lastSeen := ⟨2000⟩ }

/-! ## Lemmas on the map, the copy loop and the callback fan-out -/

theorem copyData_eq (d : JsonMap) : copyData d = d := by
  induction d with
  | nil => rfl
  | cons kv rest ih =>
    show kv :: copyData rest = kv :: rest
    rw [ih]

theorem mapGet_mapSet_same {K : Type} [DecidableEq K] {V : Type} (m : List (K × V)) (key : K)
    (v : V) :
    mapGet (mapSet m key v) key = some v := by
  induction m with
  | nil => simp [mapSet, mapGet]
  | cons p rest ih =>
    obtain ⟨k, r⟩ := p
    by_cases h : k = key
    · simp [mapSet, mapGet, h]
    · simp [mapSet, mapGet, h, ih]

theorem mapGet_mapSet_other {K : Type} [DecidableEq K] {V : Type} (m : List (K × V))
    (key other : K) (v : V)
    (h : other ≠ key) : mapGet (mapSet m key v) other = mapGet m other := by
  induction m with
  | nil => simp [mapSet, mapGet, Ne.symm h]
  | cons p rest ih =>
    obtain ⟨k, r⟩ := p
    by_cases hk : k = key
    · subst hk
      simp [mapSet, mapGet, Ne.symm h]
    · by_cases ho : k = other
      · subst ho
        simp [mapSet, mapGet, hk]
      · simp [mapSet, mapGet, hk, ho, ih]

/-- While the exclusive lock is held, `GetRecord` waits. -/
theorem GetRecord_held (recs : List (String × Record)) (table id : String) :
    GetRecord ⟨recs, true⟩ table id = none := by
  simp [GetRecord]

/-- With the lock free, `GetRecord` returns the record stored under the key. -/
theorem GetRecord_free (recs : List (String × Record)) (table id : String) (r : Record)
    (h : mapGet recs (recordKey table id) = some r) :
    GetRecord ⟨recs, false⟩ table id = some (.ok r) := by
  simp [GetRecord, h, copyData_eq]

/-- The engine's callback, run for a live record inside a mutation, never returns. -/
theorem runCallbacks_engine_live (record : Record) (recs : List (String × Record))
    (sent : List SyncData) (h : record.DeletedAt = none) :
    runCallbacks engineCallbacks record ⟨recs, true⟩ sent = (sent, false) := by
  simp [engineCallbacks, runCallbacks, handleStorageChange, h, GetRecord]

/-- The engine's callback, run for a tombstone, broadcasts one delete and returns. -/
theorem runCallbacks_engine_tombstone (record : Record) (sm : MemoryStorageManager)
    (sent : List SyncData) (h : record.DeletedAt.isSome = true) :
    runCallbacks engineCallbacks record sm sent =
      (sent ++ [{ Operation := "delete", Table := record.Table, RecordID := record.ID,
                  Data := record.Data, Version := record.Version }], true) := by
  simp [engineCallbacks, runCallbacks, handleStorageChange, h, BroadcastSync]

/-- A fan-out in which every callback returns runs to its end. -/
theorem runCallbacks_total {ω : Type} (cbs : List (Callback ω)) (record : Record)
    (sm : MemoryStorageManager) (w : ω)
    (h : ∀ cb ∈ cbs, ∀ w', (cb record sm w').isSome = true) :
    (runCallbacks cbs record sm w).2 = true := by
  induction cbs generalizing w with
  | nil => rfl
  | cons cb rest ih =>
    have hcb := h cb (List.mem_cons_self cb rest) w
    obtain ⟨w1, hw1⟩ := Option.isSome_iff_exists.mp hcb
    simp only [runCallbacks, hw1]
    exact ih w1 (fun c hc => h c (List.mem_cons_of_mem cb hc))

/-! ## Applying inbound sync data (`SyncEngine.handleSyncData`) -/

/-- C1, as stated, fails in both directions.  The store holds a live record of version
100.  An inbound delete of version 50 is applied: the call returns and the stored record
is now the tombstone written at clock reading 1000.  An inbound create of version 200 is
not applied: the store is what it was. -/
theorem handleSyncData_not_last_writer_wins :
    mapGet demoStore.records (recordKey staleDelete.Table staleDelete.RecordID)
        = some demoRecord ∧
      staleDelete.Version ≤ demoRecord.Version ∧
      (SyncEngine.handleSyncData demoStore ⟨1000⟩ staleDelete []).ret = some () ∧
      mapGet (SyncEngine.handleSyncData demoStore ⟨1000⟩ staleDelete []).sm.records
          (recordKey staleDelete.Table staleDelete.RecordID)
        = some { demoRecord with
            Data := [], Version := 1000, UpdatedAt := ⟨1000⟩, DeletedAt := some ⟨1000⟩ } ∧
      mapGet (SyncEngine.handleSyncData demoStore ⟨1000⟩ staleDelete []).sm.records
          (recordKey staleDelete.Table staleDelete.RecordID)
        ≠ some demoRecord ∧
      demoRecord.Version < newerCreate.Version ∧
      (SyncEngine.handleSyncData demoStore ⟨1000⟩ newerCreate []).sm = demoStore := by
  decide

/-- C1 (amended): for a store with no mutation in progress and an inbound SyncData
addressed to a key that holds a record, what `handleSyncData` does to the store does not
depend on `SyncData.Version`.  An update of a live record writes, under that key, the
record built from the inbound data and the local clock; a delete of a live record writes
the tombstone built from the local clock; in every other case (create, unknown operation,
or a stored tombstone) the call returns and the store is unchanged. -/
theorem handleSyncData_existing_record (sm : MemoryStorageManager) (now : Time)
    (sd : SyncData) (sent : List SyncData) (existing : Record)
    (hfree : sm.recordsMux = false)
    (hex : mapGet sm.records (recordKey sd.Table sd.RecordID) = some existing) :
    (∀ v : Int, SyncEngine.handleSyncData sm now { sd with Version := v } sent
        = SyncEngine.handleSyncData sm now sd sent) ∧
    (sd.Operation = "update" → existing.DeletedAt = none →
      (SyncEngine.handleSyncData sm now sd sent).sm.records
        = mapSet sm.records (recordKey sd.Table sd.RecordID)
            { ID := sd.RecordID, Table := sd.Table, Data := sd.Data,
              Version := now.UnixNano, CreatedAt := existing.CreatedAt, UpdatedAt := now,
              DeletedAt := none }) ∧
    (sd.Operation = "delete" → existing.DeletedAt = none →
      (SyncEngine.handleSyncData sm now sd sent).sm.records
        = mapSet sm.records (recordKey sd.Table sd.RecordID)
            { ID := sd.RecordID, Table := sd.Table, Data := [],
              Version := now.UnixNano, CreatedAt := existing.CreatedAt, UpdatedAt := now,
              DeletedAt := some now }) ∧
    (¬ ((sd.Operation = "update" ∨ sd.Operation = "delete") ∧ existing.DeletedAt = none) →
      (SyncEngine.handleSyncData sm now sd sent).sm = sm ∧
      (SyncEngine.handleSyncData sm now sd sent).ret = some ()) := by
  obtain ⟨recs, mux⟩ := sm
  simp only at hfree hex
  subst hfree
  refine ⟨fun _ => rfl, ?_, ?_, ?_⟩
  · intro hop hlive
    simp [SyncEngine.handleSyncData, hop, UpdateRecord, hex, hlive, Outcome.discard,
      runCallbacks_engine_live]
  · intro hop hlive
    simp [SyncEngine.handleSyncData, hop, DeleteRecord, hex, hlive, Outcome.discard,
      runCallbacks_engine_tombstone]
  · intro hno
    by_cases hc : sd.Operation = "create"
    · simp [SyncEngine.handleSyncData, hc, CreateRecord, hex, Outcome.discard]
    · by_cases hu : sd.Operation = "update"
      · have hdel : existing.DeletedAt.isSome = true := by
          cases hd : existing.DeletedAt with
          | none => exact absurd ⟨Or.inl hu, hd⟩ hno
          | some t => rfl
        simp [SyncEngine.handleSyncData, hu, UpdateRecord, hex, hdel, Outcome.discard]
      · by_cases hd : sd.Operation = "delete"
        · have hdel : existing.DeletedAt.isSome = true := by
            cases hd' : existing.DeletedAt with
            | none => exact absurd ⟨Or.inr hd, hd'⟩ hno
            | some t => rfl
          simp [SyncEngine.handleSyncData, hd, DeleteRecord, hex, hdel, Outcome.discard]
        · simp [SyncEngine.handleSyncData, hc, hu, hd]

/-- The amended C1 at the store that holds `demoRecord` and the inbound stale delete: the
tombstone of clock reading 1000 is written under the key. -/
theorem handleSyncData_existing_record_witness :
    demoStore.recordsMux = false ∧
    mapGet demoStore.records (recordKey staleDelete.Table staleDelete.RecordID)
      = some demoRecord ∧
    staleDelete.Operation = "delete" ∧ demoRecord.DeletedAt = none ∧
    (SyncEngine.handleSyncData demoStore ⟨1000⟩ staleDelete []).sm.records
      = mapSet demoStore.records (recordKey staleDelete.Table staleDelete.RecordID)
          { ID := staleDelete.RecordID, Table := staleDelete.Table, Data := [],
            Version := (⟨1000⟩ : Time).UnixNano, CreatedAt := demoRecord.CreatedAt,
            UpdatedAt := ⟨1000⟩, DeletedAt := some ⟨1000⟩ } :=
  ⟨rfl, by decide, by decide, rfl,
    (handleSyncData_existing_record demoStore ⟨1000⟩ staleDelete [] demoRecord rfl
      (by decide)).2.2.1 (by decide) rfl⟩

/-- C2, as stated, fails: the inbound delete of version 50 is applied at clock reading
1000, the call returns, and `GetRecord` then returns a record of version 1000. -/
theorem handleSyncData_version_not_preserved :
    (SyncEngine.handleSyncData demoStore ⟨1000⟩ staleDelete []).ret = some () ∧
    (∃ r : Record,
      GetRecord (SyncEngine.handleSyncData demoStore ⟨1000⟩ staleDelete []).sm
          staleDelete.Table staleDelete.RecordID = some (.ok r) ∧
      r.DeletedAt = some ⟨1000⟩ ∧ r.Version = 1000 ∧ r.Version ≠ staleDelete.Version) := by
  refine ⟨by decide, ⟨{ demoRecord with
      Data := [], Version := 1000, UpdatedAt := ⟨1000⟩, DeletedAt := some ⟨1000⟩ }, ?_⟩⟩
  refine ⟨?_, rfl, rfl, by decide⟩
  exact GetRecord_free _ _ _ _ (by decide)

/-- C2 (amended): when `handleSyncData` applies an inbound create (no record under the
key), update or delete (a live record under the key) to a store with no mutation in
progress, the record then stored under the key has the version read from the local clock,
`now.UnixNano()`, whatever `SyncData.Version` is; and whenever the call has returned, as
it does for every applied delete, `GetRecord` returns that record. -/
theorem handleSyncData_version_from_clock (sm : MemoryStorageManager) (now : Time)
    (sd : SyncData) (sent : List SyncData) (hfree : sm.recordsMux = false)
    (happlied :
      (sd.Operation = "create" ∧ mapGet sm.records (recordKey sd.Table sd.RecordID) = none) ∨
      ((sd.Operation = "update" ∨ sd.Operation = "delete") ∧
        ∃ e, mapGet sm.records (recordKey sd.Table sd.RecordID) = some e ∧
          e.DeletedAt = none)) :
    (∃ r : Record,
      mapGet (SyncEngine.handleSyncData sm now sd sent).sm.records
          (recordKey sd.Table sd.RecordID) = some r ∧
      r.Version = now.UnixNano ∧
      ((SyncEngine.handleSyncData sm now sd sent).ret = some () →
        GetRecord (SyncEngine.handleSyncData sm now sd sent).sm sd.Table sd.RecordID
          = some (.ok r))) ∧
    (sd.Operation = "delete" → (SyncEngine.handleSyncData sm now sd sent).ret = some ()) := by
  obtain ⟨recs, mux⟩ := sm
  simp only at hfree happlied
  subst hfree
  rcases happlied with ⟨hop, hnone⟩ | ⟨hop | hop, e, hsome, hlive⟩
  · refine ⟨⟨
      { ID := sd.RecordID, Table := sd.Table, Data := sd.Data,
        Version := now.UnixNano, CreatedAt := now, UpdatedAt := now, DeletedAt := none },
      ?_, rfl, ?_⟩, ?_⟩
    · simp [SyncEngine.handleSyncData, hop, CreateRecord, hnone, Outcome.discard,
        runCallbacks_engine_live, mapGet_mapSet_same]
    · simp [SyncEngine.handleSyncData, hop, CreateRecord, hnone, Outcome.discard,
        runCallbacks_engine_live]
    · simp [hop]
  · refine ⟨⟨
      { ID := sd.RecordID, Table := sd.Table, Data := sd.Data,
        Version := now.UnixNano, CreatedAt := e.CreatedAt, UpdatedAt := now,
        DeletedAt := none }, ?_, rfl, ?_⟩, ?_⟩
    · simp [SyncEngine.handleSyncData, hop, UpdateRecord, hsome, hlive, Outcome.discard,
        runCallbacks_engine_live, mapGet_mapSet_same]
    · simp [SyncEngine.handleSyncData, hop, UpdateRecord, hsome, hlive, Outcome.discard,
        runCallbacks_engine_live]
    · simp [hop]
  · refine ⟨⟨
      { ID := sd.RecordID, Table := sd.Table, Data := [],
        Version := now.UnixNano, CreatedAt := e.CreatedAt, UpdatedAt := now,
        DeletedAt := some now }, ?_, rfl, ?_⟩, ?_⟩
    · simp [SyncEngine.handleSyncData, hop, DeleteRecord, hsome, hlive, Outcome.discard,
        runCallbacks_engine_tombstone, mapGet_mapSet_same]
    · intro _
      simp [SyncEngine.handleSyncData, hop, DeleteRecord, hsome, hlive, Outcome.discard,
        runCallbacks_engine_tombstone, GetRecord, mapGet_mapSet_same, copyData_eq]
    · intro _
      simp [SyncEngine.handleSyncData, hop, DeleteRecord, hsome, hlive, Outcome.discard,
        runCallbacks_engine_tombstone]

/-- The amended C2 at the store that holds `demoRecord` and the inbound stale delete: the
call returns. -/
theorem handleSyncData_version_from_clock_witness :
    demoStore.recordsMux = false ∧
    ((staleDelete.Operation = "update" ∨ staleDelete.Operation = "delete") ∧
      ∃ e, mapGet demoStore.records (recordKey staleDelete.Table staleDelete.RecordID)
          = some e ∧ e.DeletedAt = none) ∧
    (SyncEngine.handleSyncData demoStore ⟨1000⟩ staleDelete []).ret = some () :=
  ⟨rfl, ⟨Or.inr (by decide), demoRecord, by decide, rfl⟩,
    (handleSyncData_version_from_clock demoStore ⟨1000⟩ staleDelete [] rfl
      (Or.inr ⟨Or.inr (by decide), demoRecord, by decide, rfl⟩)).2 (by decide)⟩

/-- C3, as stated, fails: applying the inbound delete of version 50 makes the store
callback broadcast a delete for the same table and id; and when the inbound version equals
the local clock reading, the broadcast carries the same table, id and version. -/
theorem handleSyncData_echoes_delete :
    (SyncEngine.handleSyncData demoStore ⟨1000⟩ staleDelete []).world
      = [{ Operation := "delete", Table := staleDelete.Table,
           RecordID := staleDelete.RecordID, Data := [], Version := 1000 }] ∧
    (SyncEngine.handleSyncData demoStore ⟨1000⟩ sameClockDelete []).world
      = [sameClockDelete] := by
  decide

/-- C3 (amended): on a store with no mutation in progress, an inbound delete of a live
record makes `handleStorageChange` call `BroadcastSync` exactly once, with operation
delete, the same table and id, empty data and the version read from the local clock; an
inbound SyncData that the store refuses (create of a stored key, update or delete of an
absent key or of a tombstone) or whose operation is unknown causes no call, and
`handleSyncData` returns. -/
theorem handleSyncData_broadcasts (sm : MemoryStorageManager) (now : Time)
    (sd : SyncData) (sent : List SyncData) (hfree : sm.recordsMux = false) :
    (sd.Operation = "delete" →
      (∃ e, mapGet sm.records (recordKey sd.Table sd.RecordID) = some e ∧
        e.DeletedAt = none) →
      (SyncEngine.handleSyncData sm now sd sent).world
        = sent ++ [{ Operation := "delete", Table := sd.Table, RecordID := sd.RecordID,
                     Data := [], Version := now.UnixNano }] ∧
      (SyncEngine.handleSyncData sm now sd sent).ret = some ()) ∧
    (((sd.Operation = "create" ∧
        ∃ e, mapGet sm.records (recordKey sd.Table sd.RecordID) = some e) ∨
      ((sd.Operation = "update" ∨ sd.Operation = "delete") ∧
        (mapGet sm.records (recordKey sd.Table sd.RecordID) = none ∨
          ∃ e, mapGet sm.records (recordKey sd.Table sd.RecordID) = some e ∧
            e.DeletedAt.isSome = true)) ∨
      (sd.Operation ≠ "create" ∧ sd.Operation ≠ "update" ∧ sd.Operation ≠ "delete")) →
      (SyncEngine.handleSyncData sm now sd sent).world = sent ∧
      (SyncEngine.handleSyncData sm now sd sent).ret = some ()) := by
  obtain ⟨recs, mux⟩ := sm
  simp only at hfree
  subst hfree
  constructor
  · rintro hop ⟨e, hsome, hlive⟩
    simp [SyncEngine.handleSyncData, hop, DeleteRecord, hsome, hlive, Outcome.discard,
      runCallbacks_engine_tombstone]
  · rintro (⟨hop, e, hsome⟩ | ⟨hop | hop, hnone | ⟨e, hsome, hdel⟩⟩ | ⟨hc, hu, hd⟩)
    · simp [SyncEngine.handleSyncData, hop, CreateRecord, hsome, Outcome.discard]
    · simp [SyncEngine.handleSyncData, hop, UpdateRecord, hnone, Outcome.discard]
    · simp [SyncEngine.handleSyncData, hop, UpdateRecord, hsome, hdel, Outcome.discard]
    · simp [SyncEngine.handleSyncData, hop, DeleteRecord, hnone, Outcome.discard]
    · simp [SyncEngine.handleSyncData, hop, DeleteRecord, hsome, hdel, Outcome.discard]
    · simp [SyncEngine.handleSyncData, hc, hu, hd]

/-- The amended C3 at the store that holds `demoRecord` and the inbound stale delete. -/
theorem handleSyncData_broadcasts_witness :
    demoStore.recordsMux = false ∧ staleDelete.Operation = "delete" ∧
    (∃ e, mapGet demoStore.records (recordKey staleDelete.Table staleDelete.RecordID)
        = some e ∧ e.DeletedAt = none) ∧
    (SyncEngine.handleSyncData demoStore ⟨1000⟩ staleDelete []).world
      = [] ++ [{ Operation := "delete", Table := staleDelete.Table,
                 RecordID := staleDelete.RecordID, Data := [],
                 Version := (⟨1000⟩ : Time).UnixNano }] ∧
    (SyncEngine.handleSyncData demoStore ⟨1000⟩ staleDelete []).ret = some () :=
  ⟨rfl, by decide, ⟨demoRecord, by decide, rfl⟩,
    (handleSyncData_broadcasts demoStore ⟨1000⟩ staleDelete [] rfl).1 (by decide)
      ⟨demoRecord, by decide, rfl⟩⟩

/-! ## Broadcasting local changes (`SyncEngine.handleStorageChange`) -/

/-- Had the callback been able to read the store, it would have found the record the
mutation has just stored, of equal version, and returned without broadcasting. -/
theorem handleStorageChange_after_store (record : Record) (recs : List (String × Record))
    (sent : List SyncData) (hlive : record.DeletedAt = none) :
    handleStorageChange record
        ⟨mapSet recs (recordKey record.Table record.ID) record, false⟩ sent
      = some sent := by
  simp [handleStorageChange, hlive, GetRecord, mapGet_mapSet_same]

/-- C4 fails in the code for create and update: with the engine's store callback
registered, no `CreateRecord` and no `UpdateRecord` call leads to a `BroadcastSync` call,
and none returns a record; the callback waits for the lock its caller holds.  At the
demo create of `diary_entries/demo-1` on the empty store the record is stored, the call
never returns and the lock stays held. -/
theorem local_create_update_never_broadcast (sm : MemoryStorageManager) (now : Time)
    (table id : String) (data : JsonMap) (sent : List SyncData) :
    (CreateRecord engineCallbacks sm now table id data sent).world = sent ∧
    (∀ r, (CreateRecord engineCallbacks sm now table id data sent).ret ≠ some (.ok r)) ∧
    (UpdateRecord engineCallbacks sm now table id data sent).world = sent ∧
    (∀ r, (UpdateRecord engineCallbacks sm now table id data sent).ret ≠ some (.ok r)) ∧
    (CreateRecord engineCallbacks NewMemoryStorageManager ⟨1000⟩ "diary_entries" "demo-1"
      [("title", "\"t\"")] ([] : List SyncData)).ret = none ∧
    (CreateRecord engineCallbacks NewMemoryStorageManager ⟨1000⟩ "diary_entries" "demo-1"
      [("title", "\"t\"")] ([] : List SyncData)).sm
      = ⟨[("diary_entries:demo-1",
            { ID := "demo-1", Table := "diary_entries", Data := [("title", "\"t\"")],
              Version := 1000, CreatedAt := ⟨1000⟩, UpdatedAt := ⟨1000⟩,
              DeletedAt := none })], true⟩ := by
  obtain ⟨recs, mux⟩ := sm
  refine ⟨?_, ?_, ?_, ?_, rfl, by decide⟩
  · cases mux <;> cases hg : mapGet recs (recordKey table id) <;>
      simp [CreateRecord, hg, runCallbacks_engine_live]
  · intro r
    cases mux <;> cases hg : mapGet recs (recordKey table id) <;>
      simp [CreateRecord, hg, runCallbacks_engine_live]
  · cases mux
    · cases hg : mapGet recs (recordKey table id) with
      | none => simp [UpdateRecord, hg]
      | some e =>
        cases hd : e.DeletedAt <;> simp [UpdateRecord, hg, hd, runCallbacks_engine_live]
    · simp [UpdateRecord]
  · intro r
    cases mux
    · cases hg : mapGet recs (recordKey table id) with
      | none => simp [UpdateRecord, hg]
      | some e =>
        cases hd : e.DeletedAt <;> simp [UpdateRecord, hg, hd, runCallbacks_engine_live]
    · simp [UpdateRecord]

/-! ## The in-memory store (`pkg/storage/memory.go`) -/

/-- C10: on a store with no mutation in progress, `CreateRecord` returns the
already-exists error and leaves the store (and the subscribers) unchanged when a record,
live or tombstoned, is stored under the key of (table, id); whenever it returns a record,
that record is live, has the given table, id and data and `created_at = updated_at = now`,
and `GetRecord(table, id)` afterwards returns it; and it does return a record when the key
is free and every callback returns. -/
theorem CreateRecord_contract {ω : Type} (callbacks : List (Callback ω))
    (sm : MemoryStorageManager) (now : Time) (table id : String) (data : JsonMap) (w : ω)
    (hfree : sm.recordsMux = false) :
    ((∃ e, mapGet sm.records (recordKey table id) = some e) →
      (CreateRecord callbacks sm now table id data w).ret
          = some (.error (.alreadyExists table id)) ∧
      (CreateRecord callbacks sm now table id data w).sm = sm ∧
      (CreateRecord callbacks sm now table id data w).world = w) ∧
    (∀ r, (CreateRecord callbacks sm now table id data w).ret = some (.ok r) →
      r.DeletedAt = none ∧ r.Table = table ∧ r.ID = id ∧ r.Data = data ∧
      r.CreatedAt = now ∧ r.UpdatedAt = now ∧
      GetRecord (CreateRecord callbacks sm now table id data w).sm table id
        = some (.ok r)) ∧
    (mapGet sm.records (recordKey table id) = none →
      (∀ cb ∈ callbacks, ∀ (r : Record) (s : MemoryStorageManager) (w' : ω),
        (cb r s w').isSome = true) →
      ∃ r, (CreateRecord callbacks sm now table id data w).ret = some (.ok r)) := by
  obtain ⟨recs, mux⟩ := sm
  simp only at hfree
  subst hfree
  refine ⟨?_, ?_, ?_⟩
  · rintro ⟨e, he⟩
    simp [CreateRecord, he]
  · intro r hr
    cases hg : mapGet recs (recordKey table id) with
    | some e => simp [CreateRecord, hg] at hr
    | none =>
      simp only [CreateRecord, hg] at hr ⊢
      generalize hrun : runCallbacks callbacks _ _ w = res at hr ⊢
      obtain ⟨w', ok⟩ := res
      cases ok with
      | false => simp at hr
      | true =>
        simp only [Bool.false_eq_true, if_false, Option.some.injEq, Except.ok.injEq] at hr
        subst hr
        refine ⟨rfl, rfl, rfl, rfl, rfl, rfl, ?_⟩
        exact GetRecord_free _ _ _ _ (mapGet_mapSet_same _ _ _)
  · intro hg hall
    have htot := runCallbacks_total callbacks
      { ID := id, Table := table, Data := data, Version := now.UnixNano,
        CreatedAt := now, UpdatedAt := now, DeletedAt := none }
      ⟨mapSet recs (recordKey table id)
        { ID := id, Table := table, Data := data, Version := now.UnixNano,
          CreatedAt := now, UpdatedAt := now, DeletedAt := none }, true⟩ w
      (fun cb hcb w' => hall cb hcb _ _ w')
    simp only [CreateRecord, hg]
    generalize hrun : runCallbacks callbacks _ _ w = res at htot ⊢
    obtain ⟨w', ok⟩ := res
    simp only at htot
    subst htot
    exact ⟨_, rfl⟩

/-- C10 at the store that holds `demoRecord`: a second create of the same key is refused
and changes nothing, and a create of the fresh id `demo-2` returns a record. -/
theorem CreateRecord_contract_witness :
    demoStore.recordsMux = false ∧
    (∃ e, mapGet demoStore.records (recordKey "diary_entries" "demo-1") = some e) ∧
    ((CreateRecord ([] : List (Callback Unit)) demoStore ⟨1000⟩ "diary_entries" "demo-1"
        [] ()).ret = some (.error (.alreadyExists "diary_entries" "demo-1")) ∧
      (CreateRecord ([] : List (Callback Unit)) demoStore ⟨1000⟩ "diary_entries" "demo-1"
        [] ()).sm = demoStore ∧
      (CreateRecord ([] : List (Callback Unit)) demoStore ⟨1000⟩ "diary_entries" "demo-1"
        [] ()).world = ()) ∧
    mapGet demoStore.records (recordKey "diary_entries" "demo-2") = none ∧
    (∃ r, (CreateRecord ([] : List (Callback Unit)) demoStore ⟨1000⟩ "diary_entries"
        "demo-2" [] ()).ret = some (.ok r)) :=
  ⟨rfl, ⟨demoRecord, by decide⟩,
    (CreateRecord_contract ([] : List (Callback Unit)) demoStore ⟨1000⟩ "diary_entries"
      "demo-1" [] () rfl).1 ⟨demoRecord, by decide⟩,
    by decide,
    (CreateRecord_contract ([] : List (Callback Unit)) demoStore ⟨1000⟩ "diary_entries"
      "demo-2" [] () rfl).2.2 (by decide) (by simp)⟩

/-! ## Device assertions (`VerifyDeviceInfo`, `CreateDeviceInfo`) -/

theorem fromHexChar_hexDigit : ∀ n, n < 16 → fromHexChar (hexDigit n) = some n := by
  decide

theorem decodePairs_encode (bs : Bytes) :
    decodePairs (bs.flatMap fun v => [hexDigit (v.val / 16), hexDigit (v.val % 16)])
      = some bs := by
  induction bs with
  | nil => rfl
  | cons v rest ih =>
    have hhi : v.val / 16 < 16 := by omega
    have hlo : v.val % 16 < 16 := by omega
    have hv : (v.val / 16 * 16 + v.val % 16) % 256 = v.val := by omega
    show decodePairs (hexDigit (v.val / 16) :: hexDigit (v.val % 16) ::
        rest.flatMap fun v => [hexDigit (v.val / 16), hexDigit (v.val % 16)]) = some (v :: rest)
    simp only [decodePairs, fromHexChar_hexDigit _ hhi, fromHexChar_hexDigit _ hlo, ih,
      Option.map_some']
    rw [Option.some.injEq, List.cons.injEq]
    exact ⟨Fin.ext hv, rfl⟩

/-- Decoding undoes encoding. -/
theorem DecodeString_EncodeToString (bs : Bytes) :
    DecodeString (EncodeToString bs) = some bs :=
  decodePairs_encode bs

/-- An accepted assertion has a decodable 32-byte key, a decodable signature that verifies
over the canonical string, and the account id of the key. -/
theorem VerifyDeviceInfo_ok_elim (verify : Bytes → String → Bytes → Bool)
    (sha256 : Bytes → Bytes) (a : DeviceInfo) (h : VerifyDeviceInfo verify sha256 a = .ok ()) :
    ∃ pk sig, DecodeString a.PublicKey = some pk ∧ pk.length = PublicKeySize ∧
      DecodeString a.Signature = some sig ∧
      verify pk (canonicalString a.AccountID a.DeviceName a.Timestamp) sig = true ∧
      a.AccountID = EncodeToString (sha256 pk) := by
  unfold VerifyDeviceInfo at h
  cases hpk : DecodeString a.PublicKey with
  | none => simp [hpk] at h
  | some pk =>
    cases hsig : DecodeString a.Signature with
    | none =>
      simp only [hpk, hsig] at h
      split at h <;> simp at h
    | some sig =>
      simp only [hpk, hsig] at h
      by_cases hlen : pk.length = PublicKeySize
      · by_cases hv : verify pk (canonicalString a.AccountID a.DeviceName a.Timestamp) sig
            = true
        · by_cases hacc : a.AccountID = EncodeToString (sha256 pk)
          · exact ⟨pk, sig, rfl, hlen, rfl, hv, hacc⟩
          · simp [hlen, hv, hacc] at h
        · simp [hlen, hv] at h
      · simp [hlen] at h

/-- An assertion that passes the four checks is accepted. -/
theorem VerifyDeviceInfo_ok_intro (verify : Bytes → String → Bytes → Bool)
    (sha256 : Bytes → Bytes) (a : DeviceInfo) (pk sig : Bytes)
    (hpk : DecodeString a.PublicKey = some pk) (hlen : pk.length = PublicKeySize)
    (hsig : DecodeString a.Signature = some sig)
    (hv : verify pk (canonicalString a.AccountID a.DeviceName a.Timestamp) sig = true)
    (hacc : a.AccountID = EncodeToString (sha256 pk)) :
    VerifyDeviceInfo verify sha256 a = .ok () := by
  simp [VerifyDeviceInfo, hpk, hlen, hsig, hv, ← hacc]

/-- C7: `VerifyDeviceInfo` succeeds exactly when the public key is hex that decodes to 32
bytes, the signature is hex that decodes and verifies under that key over the string
`account_id|device_name|timestamp`, and the account id is the lowercase hex of the SHA-256
of the decoded key; in every other case it returns an error. -/
theorem VerifyDeviceInfo_ok_iff (verify : Bytes → String → Bytes → Bool)
    (sha256 : Bytes → Bytes) (a : DeviceInfo) :
    (VerifyDeviceInfo verify sha256 a = .ok () ↔
      ∃ pk sig, DecodeString a.PublicKey = some pk ∧ pk.length = PublicKeySize ∧
        DecodeString a.Signature = some sig ∧
        verify pk (canonicalString a.AccountID a.DeviceName a.Timestamp) sig = true ∧
        a.AccountID = EncodeToString (sha256 pk)) ∧
    (VerifyDeviceInfo verify sha256 a ≠ .ok () →
      ∃ e, VerifyDeviceInfo verify sha256 a = .error e) := by
  refine ⟨⟨VerifyDeviceInfo_ok_elim verify sha256 a, ?_⟩, ?_⟩
  · rintro ⟨pk, sig, hpk, hlen, hsig, hv, hacc⟩
    exact VerifyDeviceInfo_ok_intro verify sha256 a pk sig hpk hlen hsig hv hacc
  · intro h
    cases hr : VerifyDeviceInfo verify sha256 a with
    | error e => exact ⟨e, rfl⟩
    | ok u => exact absurd hr h

/-- C8, as stated, fails: under a scheme in which verification accepts every signature
made with the matching private key, the identity read from an `identity.json` with a
matching key pair and no `account_id` produces an assertion that `VerifyDeviceInfo`
rejects for an account id mismatch. -/
theorem CreateDeviceInfo_loaded_identity_rejected :
    (∀ pub priv msg, demoKeyPair pub priv →
      demoVerify pub msg (demoSign priv msg) = true) ∧
    demoKeyPair loadedIdentity.PublicKey loadedIdentity.PrivateKey ∧
    (∃ info, CreateDeviceInfo demoSign loadedIdentity "alpha" = some info ∧
      VerifyDeviceInfo demoVerify demoSha256 info = .error .accountIDMismatch) := by
  refine ⟨?_, by decide, ?_⟩
  · rintro pub priv msg ⟨_, _, hdrop⟩
    simp [demoVerify, demoSign, hdrop]
  · exact ⟨_, rfl, by rfl⟩

/-- C8 (amended): for every identity whose keys are a matching Ed25519 key pair and whose
account id is the lowercase hex of the SHA-256 of its public key, as `NewIdentity` builds
it, and for every device name, `CreateDeviceInfo` returns an assertion that
`VerifyDeviceInfo` accepts; assumed of Ed25519: generated public keys have 32 bytes,
private keys 64, and verification accepts a signature made with the matching private
key. -/
theorem CreateDeviceInfo_verifies (sign : Bytes → String → Bytes)
    (verify : Bytes → String → Bytes → Bool) (sha256 : Bytes → Bytes)
    (keyPair : Bytes → Bytes → Prop)
    (hsize : ∀ pub priv, keyPair pub priv →
      pub.length = PublicKeySize ∧ priv.length = PrivateKeySize)
    (hverify : ∀ pub priv msg, keyPair pub priv → verify pub msg (sign priv msg) = true)
    (i : Identity) (deviceName : String) (hpair : keyPair i.PublicKey i.PrivateKey)
    (hacc : i.AccountID = EncodeToString (sha256 i.PublicKey)) :
    ∃ info, CreateDeviceInfo sign i deviceName = some info ∧
      VerifyDeviceInfo verify sha256 info = .ok () := by
  obtain ⟨hpub, hpriv⟩ := hsize _ _ hpair
  have hcreate : CreateDeviceInfo sign i deviceName
      = some { AccountID := i.AccountID, PublicKey := EncodeToString i.PublicKey,
               DeviceName := deviceName, Timestamp := getCurrentTimestamp,
               Signature := EncodeToString (sign i.PrivateKey
                 (canonicalString i.AccountID deviceName getCurrentTimestamp)) } := by
    simp [CreateDeviceInfo, hpriv]
  refine ⟨_, hcreate, ?_⟩
  exact VerifyDeviceInfo_ok_intro verify sha256 _ i.PublicKey
    (sign i.PrivateKey (canonicalString i.AccountID deviceName getCurrentTimestamp))
    (DecodeString_EncodeToString _) hpub (DecodeString_EncodeToString _)
    (hverify _ _ _ hpair) hacc

/-- The amended C8 at the identity `NewIdentity` builds from the demo key pair. -/
theorem CreateDeviceInfo_verifies_witness :
    demoKeyPair (NewIdentity demoSha256 demoPublicKey demoPrivateKey).PublicKey
      (NewIdentity demoSha256 demoPublicKey demoPrivateKey).PrivateKey ∧
    (NewIdentity demoSha256 demoPublicKey demoPrivateKey).AccountID
      = EncodeToString
          (demoSha256 (NewIdentity demoSha256 demoPublicKey demoPrivateKey).PublicKey) ∧
    (∃ info,
      CreateDeviceInfo demoSign (NewIdentity demoSha256 demoPublicKey demoPrivateKey)
          "alpha" = some info ∧
      VerifyDeviceInfo demoVerify demoSha256 info = .ok ()) :=
  ⟨by decide, rfl,
    CreateDeviceInfo_verifies demoSign demoVerify demoSha256 demoKeyPair
      (fun _ _ h => ⟨h.1, h.2.1⟩)
      (fun pub priv msg h => by simp [demoVerify, demoSign, h.2.2])
      (NewIdentity demoSha256 demoPublicKey demoPrivateKey) "alpha" (by decide) rfl⟩

/-! ### Tampering with an assertion -/

/-- C5: a frame that parses as a `SyncMessage` whose `account_id` differs from the account
of this device is dropped, whatever its type and payload: for every list of sync callbacks
the subscribers' state (the store, for the engine's callback) and `last_seen` are what
they were, so no callback ran; the loop goes on with the next read. -/
theorem handleConnection_drops_foreign_account {ω : Type} (accountID : String)
    (unmarshal : String → Option SyncMessage) (asSyncData : String → Option SyncData)
    (callbacks : List (SyncCallback ω)) (syncConn : SyncConnection) (bytes : String)
    (now : Time) (msg : SyncMessage) (rest : List (ReadResult × Time))
    (connections : List (String × SyncConnection)) (w : ω) (lastSeen : Time)
    (hparse : unmarshal bytes = some msg) (hforeign : msg.AccountID ≠ accountID) :
    handleConnectionStep accountID unmarshal asSyncData callbacks (.message bytes) now w
        lastSeen = .next w lastSeen ∧
    handleConnection accountID unmarshal asSyncData callbacks syncConn
        ((.message bytes, now) :: rest) connections w lastSeen
      = handleConnection accountID unmarshal asSyncData callbacks syncConn rest connections
          w lastSeen := by
  have hstep : handleConnectionStep accountID unmarshal asSyncData callbacks
      (.message bytes) now w lastSeen = .next w lastSeen := by
    simp [handleConnectionStep, hparse, hforeign]
  exact ⟨hstep, by rw [handleConnection, hstep]⟩

/-- C5 at the engine's callback: the frame of the foreign account asks for the delete of
the stored record; the store keeps the record and the session keeps reading. -/
theorem handleConnection_drops_foreign_account_witness :
    demoUnmarshal "frame:foreign-delete" = some foreignMessage ∧
    foreignMessage.AccountID ≠ "abab" ∧
    handleConnectionStep "abab" demoUnmarshal demoAsSyncData [engineSyncCallback ⟨1000⟩]
        (.message "frame:foreign-delete") ⟨1000⟩ (demoStore, ([] : List SyncData)) ⟨0⟩
      = .next (demoStore, []) ⟨0⟩ :=
  ⟨by decide, by decide,
    (handleConnection_drops_foreign_account "abab" demoUnmarshal demoAsSyncData
      [engineSyncCallback ⟨1000⟩] ⟨7, "abab", "", ⟨0⟩⟩ "frame:foreign-delete" ⟨1000⟩
      foreignMessage [] [] (demoStore, ([] : List SyncData)) ⟨0⟩ (by decide)
      (by decide)).1⟩

/-- Whatever its signature and payload, a message of type handshake is accepted. -/
theorem performHandshake_ignores_signature (accountID : String)
    (unmarshal : String → Option SyncMessage) (bytes : String) (msg : SyncMessage)
    (now : Time) (hparse : unmarshal bytes = some msg) (htype : msg.MsgType = "handshake") :
    (performHandshake accountID unmarshal (.message bytes) true now).result
      = .ok msg.AccountID := by
  simp [performHandshake, hparse, htype, verifyHandshakeSignature]

/-- C6 fails in the code: the first frame is a handshake that carries `tamperedInfo`, an
assertion that `VerifyDeviceInfo` rejects for its signature; `performHandshake` returns the
account id without error and writes the `handshake_response`, and `handleWebSocket` stores
the session under that account id and leaves the connection open. -/
theorem performHandshake_accepts_tampered_signature :
    VerifyDeviceInfo oracleVerify demoSha256 signedInfo = .ok () ∧
    VerifyDeviceInfo oracleVerify demoSha256 tamperedInfo = .error .invalidSignature ∧
    demoUnmarshal "frame:tampered-handshake" = some tamperedHandshake ∧
    (performHandshake "abab" demoUnmarshal (.message "frame:tampered-handshake") true
        ⟨1000⟩).result = .ok "abab" ∧
    (performHandshake "abab" demoUnmarshal (.message "frame:tampered-handshake") true
        ⟨1000⟩).written
      = [{ MsgType := "handshake_response", AccountID := "abab", Data := "null",
           Timestamp := 0, Signature := "" }] ∧
    (handleWebSocket (NewSyncManager "abab" "") demoUnmarshal 7
        (.message "frame:tampered-handshake") true ⟨1000⟩).sm.connections
      = [("abab", { conn := 7, accountID := "abab", deviceName := "", lastSeen := ⟨1000⟩ })] ∧
    (handleWebSocket (NewSyncManager "abab" "") demoUnmarshal 7
        (.message "frame:tampered-handshake") true ⟨1000⟩).closed = false :=
  ⟨by rfl, by rfl, by rfl, by rfl, by decide, by decide, by decide⟩

/-! ## The three mutations of the store, case by case -/

theorem runCallbacks_of_allReturn {ω : Type} (callbacks : List (Callback ω))
    (h : AllReturn callbacks) (record : Record) (sm : MemoryStorageManager) (w : ω) :
    (runCallbacks callbacks record sm w).2 = true :=
  runCallbacks_total callbacks record sm w (fun cb hcb w' => h cb hcb record sm w')

/-- A call that finds the lock held waits and changes nothing. -/
theorem StoreCall_run_held {ω : Type} (callbacks : List (Callback ω))
    (recs : List (String × Record)) (now : Time) (c : StoreCall) (w : ω) :
    c.run callbacks ⟨recs, true⟩ now w = ⟨⟨recs, true⟩, w, none⟩ := by
  cases c <;> simp [StoreCall.run, CreateRecord, UpdateRecord, DeleteRecord]

/-- `CreateRecord` on a key that holds a record. -/
theorem CreateRecord_existing {ω : Type} (callbacks : List (Callback ω))
    (recs : List (String × Record)) (now : Time) (table id : String) (data : JsonMap) (w : ω)
    (e : Record) (hg : mapGet recs (recordKey table id) = some e) :
    CreateRecord callbacks ⟨recs, false⟩ now table id data w
      = ⟨⟨recs, false⟩, w, some (.error (.alreadyExists table id))⟩ := by
  simp [CreateRecord, hg]

/-- `CreateRecord` on a free key: the record is stored, the callbacks run, and the call
returns the record and releases the lock when all of them have returned. -/
theorem CreateRecord_fresh {ω : Type} (callbacks : List (Callback ω))
    (recs : List (String × Record)) (now : Time) (table id : String) (data : JsonMap) (w : ω)
    (hg : mapGet recs (recordKey table id) = none) :
    CreateRecord callbacks ⟨recs, false⟩ now table id data w
      = ⟨⟨mapSet recs (recordKey table id) (createdRecord now table id data),
            !(runCallbacks callbacks (createdRecord now table id data)
                ⟨mapSet recs (recordKey table id) (createdRecord now table id data), true⟩
                w).2⟩,
          (runCallbacks callbacks (createdRecord now table id data)
            ⟨mapSet recs (recordKey table id) (createdRecord now table id data), true⟩ w).1,
          if (runCallbacks callbacks (createdRecord now table id data)
                ⟨mapSet recs (recordKey table id) (createdRecord now table id data), true⟩
                w).2
          then some (.ok (createdRecord now table id data)) else none⟩ := by
  simp only [CreateRecord, hg, createdRecord]
  rcases runCallbacks callbacks _ _ w with ⟨w', _ | _⟩ <;> simp

/-- `UpdateRecord` and `DeleteRecord` on a key that holds no record. -/
theorem UpdateRecord_absent {ω : Type} (callbacks : List (Callback ω))
    (recs : List (String × Record)) (now : Time) (table id : String) (data : JsonMap) (w : ω)
    (hg : mapGet recs (recordKey table id) = none) :
    UpdateRecord callbacks ⟨recs, false⟩ now table id data w
      = ⟨⟨recs, false⟩, w, some (.error (.notFound table id))⟩ := by
  simp [UpdateRecord, hg]

theorem DeleteRecord_absent {ω : Type} (callbacks : List (Callback ω))
    (recs : List (String × Record)) (now : Time) (table id : String) (w : ω)
    (hg : mapGet recs (recordKey table id) = none) :
    DeleteRecord callbacks ⟨recs, false⟩ now table id w
      = ⟨⟨recs, false⟩, w, some (.error (.notFound table id))⟩ := by
  simp [DeleteRecord, hg]

/-- `UpdateRecord` and `DeleteRecord` on a key that holds a tombstone. -/
theorem UpdateRecord_tombstone {ω : Type} (callbacks : List (Callback ω))
    (recs : List (String × Record)) (now : Time) (table id : String) (data : JsonMap) (w : ω)
    (e : Record) (hg : mapGet recs (recordKey table id) = some e)
    (hd : e.DeletedAt.isSome = true) :
    UpdateRecord callbacks ⟨recs, false⟩ now table id data w
      = ⟨⟨recs, false⟩, w, some (.error (.notFound table id))⟩ := by
  simp [UpdateRecord, hg, hd]

theorem DeleteRecord_tombstone {ω : Type} (callbacks : List (Callback ω))
    (recs : List (String × Record)) (now : Time) (table id : String) (w : ω)
    (e : Record) (hg : mapGet recs (recordKey table id) = some e)
    (hd : e.DeletedAt.isSome = true) :
    DeleteRecord callbacks ⟨recs, false⟩ now table id w
      = ⟨⟨recs, false⟩, w, some (.error (.notFound table id))⟩ := by
  simp [DeleteRecord, hg, hd]

/-- `UpdateRecord` on a key that holds a live record. -/
theorem UpdateRecord_live {ω : Type} (callbacks : List (Callback ω))
    (recs : List (String × Record)) (now : Time) (table id : String) (data : JsonMap) (w : ω)
    (e : Record) (hg : mapGet recs (recordKey table id) = some e)
    (hlive : e.DeletedAt = none) :
    UpdateRecord callbacks ⟨recs, false⟩ now table id data w
      = ⟨⟨mapSet recs (recordKey table id) (updatedRecord now table id data e),
            !(runCallbacks callbacks (updatedRecord now table id data e)
                ⟨mapSet recs (recordKey table id) (updatedRecord now table id data e), true⟩
                w).2⟩,
          (runCallbacks callbacks (updatedRecord now table id data e)
            ⟨mapSet recs (recordKey table id) (updatedRecord now table id data e), true⟩ w).1,
          if (runCallbacks callbacks (updatedRecord now table id data e)
                ⟨mapSet recs (recordKey table id) (updatedRecord now table id data e), true⟩
                w).2
          then some (.ok (updatedRecord now table id data e)) else none⟩ := by
  simp only [UpdateRecord, hg, hlive, updatedRecord]
  rcases runCallbacks callbacks _ _ w with ⟨w', _ | _⟩ <;> simp

/-- `DeleteRecord` on a key that holds a live record. -/
theorem DeleteRecord_live {ω : Type} (callbacks : List (Callback ω))
    (recs : List (String × Record)) (now : Time) (table id : String) (w : ω)
    (e : Record) (hg : mapGet recs (recordKey table id) = some e)
    (hlive : e.DeletedAt = none) :
    DeleteRecord callbacks ⟨recs, false⟩ now table id w
      = ⟨⟨mapSet recs (recordKey table id) (tombstoneRecord now table id e),
            !(runCallbacks callbacks (tombstoneRecord now table id e)
                ⟨mapSet recs (recordKey table id) (tombstoneRecord now table id e), true⟩
                w).2⟩,
          (runCallbacks callbacks (tombstoneRecord now table id e)
            ⟨mapSet recs (recordKey table id) (tombstoneRecord now table id e), true⟩ w).1,
          if (runCallbacks callbacks (tombstoneRecord now table id e)
                ⟨mapSet recs (recordKey table id) (tombstoneRecord now table id e), true⟩
                w).2
          then some (.ok ()) else none⟩ := by
  rcases hres : runCallbacks callbacks (tombstoneRecord now table id e)
      ⟨mapSet recs (recordKey table id) (tombstoneRecord now table id e), true⟩ w
    with ⟨w', _ | _⟩ <;>
  · simp only [tombstoneRecord] at hres
    simp [DeleteRecord, hg, hlive, tombstoneRecord, hres]

/-- By key: on a store with no mutation in progress, `UpdateRecord` returns the not-found
error exactly when no record is stored under the key of (table, id) or the record stored
under that key is a tombstone, and then the store and the subscribers are unchanged; over a live record it
stores a live record with the new data, the `created_at` of the old record and
`updated_at = now`, and it returns that record when every callback returns. -/
theorem UpdateRecord_contract {ω : Type} (callbacks : List (Callback ω))
    (sm : MemoryStorageManager) (now : Time) (table id : String) (data : JsonMap) (w : ω)
    (hfree : sm.recordsMux = false) :
    ((UpdateRecord callbacks sm now table id data w).ret
        = some (.error (.notFound table id)) ↔
      (mapGet sm.records (recordKey table id) = none ∨
        ∃ e, mapGet sm.records (recordKey table id) = some e ∧ e.DeletedAt.isSome = true)) ∧
    ((UpdateRecord callbacks sm now table id data w).ret
        = some (.error (.notFound table id)) →
      (UpdateRecord callbacks sm now table id data w).sm = sm ∧
      (UpdateRecord callbacks sm now table id data w).world = w) ∧
    (∀ e, mapGet sm.records (recordKey table id) = some e → e.DeletedAt = none →
      (∃ r, mapGet (UpdateRecord callbacks sm now table id data w).sm.records
            (recordKey table id) = some r ∧
          r.DeletedAt = none ∧ r.Table = table ∧ r.ID = id ∧ r.Data = data ∧
          r.CreatedAt = e.CreatedAt ∧ r.UpdatedAt = now ∧
          (AllReturn callbacks →
            (UpdateRecord callbacks sm now table id data w).ret = some (.ok r) ∧
            (UpdateRecord callbacks sm now table id data w).sm.recordsMux = false))) := by
  obtain ⟨recs, mux⟩ := sm
  simp only at hfree
  subst hfree
  cases hg : mapGet recs (recordKey table id) with
  | none =>
    rw [UpdateRecord_absent callbacks recs now table id data w hg]
    simp
  | some e =>
    cases hd : e.DeletedAt with
    | some t =>
      have hd' : e.DeletedAt.isSome = true := by simp [hd]
      rw [UpdateRecord_tombstone callbacks recs now table id data w e hg hd']
      simp [hd]
    | none =>
      rw [UpdateRecord_live callbacks recs now table id data w e hg hd]
      refine ⟨?_, ?_, ?_⟩
      · constructor
        · intro h
          split at h <;> simp at h
        · rintro (h | ⟨e', he', hdel⟩)
          · simp at h
          · simp only [Option.some.injEq] at he'
            subst he'
            simp [hd] at hdel
      · intro h
        split at h <;> simp at h
      · intro e' he' _
        simp only [Option.some.injEq] at he'
        subst he'
        refine ⟨updatedRecord now table id data e, mapGet_mapSet_same _ _ _, rfl, rfl, rfl,
          rfl, rfl, rfl, ?_⟩
        intro hall
        simp [runCallbacks_of_allReturn callbacks hall]

theorem allReturn_nil {ω : Type} : AllReturn ([] : List (Callback ω)) := by
  intro cb hcb
  cases hcb

/-- At the store that holds `demoRecord`: the update of `demo-1` returns the new
record, and the update of the absent `demo-2` returns the not-found error. -/
theorem UpdateRecord_contract_witness :
    demoStore.recordsMux = false ∧
    mapGet demoStore.records (recordKey "diary_entries" "demo-1") = some demoRecord ∧
    demoRecord.DeletedAt = none ∧
    (∃ r, mapGet (UpdateRecord ([] : List (Callback Unit)) demoStore ⟨1000⟩ "diary_entries"
            "demo-1" [("title", "\"t2\"")] ()).sm.records
            (recordKey "diary_entries" "demo-1") = some r ∧
          r.Data = [("title", "\"t2\"")] ∧
          r.CreatedAt = demoRecord.CreatedAt ∧ r.UpdatedAt = ⟨1000⟩ ∧
          (UpdateRecord ([] : List (Callback Unit)) demoStore ⟨1000⟩ "diary_entries"
            "demo-1" [("title", "\"t2\"")] ()).ret = some (.ok r)) ∧
    mapGet demoStore.records (recordKey "diary_entries" "demo-2") = none ∧
    (UpdateRecord ([] : List (Callback Unit)) demoStore ⟨1000⟩ "diary_entries" "demo-2" []
        ()).ret = some (.error (.notFound "diary_entries" "demo-2")) := by
  obtain ⟨r, hr, _, _, _, hdata, hcreated, hupdated, hret⟩ :=
    (UpdateRecord_contract ([] : List (Callback Unit)) demoStore ⟨1000⟩ "diary_entries"
      "demo-1" [("title", "\"t2\"")] () rfl).2.2 demoRecord (by decide) rfl
  exact ⟨rfl, by decide, rfl, ⟨r, hr, hdata, hcreated, hupdated, (hret allReturn_nil).1⟩,
    by decide,
    (UpdateRecord_contract ([] : List (Callback Unit)) demoStore ⟨1000⟩ "diary_entries"
      "demo-2" [] () rfl).1.2 (Or.inl (by decide))⟩

/-- By key: on a store with no mutation in progress, `DeleteRecord` returns the not-found
error exactly when no record is stored under the key of (table, id) or the record stored
under that key is a tombstone, and then the store and the subscribers are unchanged; over a live record it
stores a record with empty data, the `created_at` of the old record and
`deleted_at = updated_at = now`, leaves the record under every other key as it was, and
returns without error when every callback returns. -/
theorem DeleteRecord_contract {ω : Type} (callbacks : List (Callback ω))
    (sm : MemoryStorageManager) (now : Time) (table id : String) (w : ω)
    (hfree : sm.recordsMux = false) :
    ((DeleteRecord callbacks sm now table id w).ret = some (.error (.notFound table id)) ↔
      (mapGet sm.records (recordKey table id) = none ∨
        ∃ e, mapGet sm.records (recordKey table id) = some e ∧ e.DeletedAt.isSome = true)) ∧
    ((DeleteRecord callbacks sm now table id w).ret = some (.error (.notFound table id)) →
      (DeleteRecord callbacks sm now table id w).sm = sm ∧
      (DeleteRecord callbacks sm now table id w).world = w) ∧
    (∀ e, mapGet sm.records (recordKey table id) = some e → e.DeletedAt = none →
      (∃ r, mapGet (DeleteRecord callbacks sm now table id w).sm.records
            (recordKey table id) = some r ∧
          r.DeletedAt = some now ∧ r.UpdatedAt = now ∧ r.Data = [] ∧
          r.Table = table ∧ r.ID = id ∧ r.CreatedAt = e.CreatedAt) ∧
      (∀ other, other ≠ recordKey table id →
        mapGet (DeleteRecord callbacks sm now table id w).sm.records other
          = mapGet sm.records other) ∧
      (AllReturn callbacks →
        (DeleteRecord callbacks sm now table id w).ret = some (.ok ()) ∧
        (DeleteRecord callbacks sm now table id w).sm.recordsMux = false)) := by
  obtain ⟨recs, mux⟩ := sm
  simp only at hfree
  subst hfree
  cases hg : mapGet recs (recordKey table id) with
  | none =>
    rw [DeleteRecord_absent callbacks recs now table id w hg]
    simp
  | some e =>
    cases hd : e.DeletedAt with
    | some t =>
      have hd' : e.DeletedAt.isSome = true := by simp [hd]
      rw [DeleteRecord_tombstone callbacks recs now table id w e hg hd']
      simp [hd]
    | none =>
      rw [DeleteRecord_live callbacks recs now table id w e hg hd]
      refine ⟨?_, ?_, ?_⟩
      · constructor
        · intro h
          split at h <;> simp at h
        · rintro (h | ⟨e', he', hdel⟩)
          · simp at h
          · simp only [Option.some.injEq] at he'
            subst he'
            simp [hd] at hdel
      · intro h
        split at h <;> simp at h
      · intro e' he' _
        simp only [Option.some.injEq] at he'
        subst he'
        refine ⟨⟨tombstoneRecord now table id e, mapGet_mapSet_same _ _ _, rfl, rfl, rfl,
          rfl, rfl, rfl⟩, ?_, ?_⟩
        · intro other hother
          exact mapGet_mapSet_other _ _ _ _ hother
        · intro hall
          simp [runCallbacks_of_allReturn callbacks hall]

/-- At the store that holds `demoRecord`: the delete of `demo-1` stores the tombstone
and returns, a second delete returns the not-found error. -/
theorem DeleteRecord_contract_witness :
    demoStore.recordsMux = false ∧
    mapGet demoStore.records (recordKey "diary_entries" "demo-1") = some demoRecord ∧
    demoRecord.DeletedAt = none ∧
    (DeleteRecord ([] : List (Callback Unit)) demoStore ⟨1000⟩ "diary_entries" "demo-1"
        ()).ret = some (.ok ()) ∧
    (DeleteRecord ([] : List (Callback Unit))
        (DeleteRecord ([] : List (Callback Unit)) demoStore ⟨1000⟩ "diary_entries" "demo-1"
          ()).sm ⟨2000⟩ "diary_entries" "demo-1" ()).ret
      = some (.error (.notFound "diary_entries" "demo-1")) :=
  ⟨rfl, by decide, rfl,
    ((DeleteRecord_contract ([] : List (Callback Unit)) demoStore ⟨1000⟩ "diary_entries"
      "demo-1" () rfl).2.2 demoRecord (by decide) rfl).2.2 allReturn_nil |>.1,
    (DeleteRecord_contract ([] : List (Callback Unit))
      (DeleteRecord ([] : List (Callback Unit)) demoStore ⟨1000⟩ "diary_entries" "demo-1"
        ()).sm ⟨2000⟩ "diary_entries" "demo-1" () (by decide)).1.2
      (Or.inr ⟨tombstoneRecord ⟨1000⟩ "diary_entries" "demo-1" demoRecord, by decide,
        by decide⟩)⟩

/-! ## Sequences of calls: what they preserve -/

theorem mem_keys_mapSet {V : Type} (m : List (String × V)) (key : String) (v : V) (x : String)
    (h : x ∈ (mapSet m key v).map Prod.fst) : x = key ∨ x ∈ m.map Prod.fst := by
  induction m with
  | nil => simp [mapSet] at h; exact Or.inl h
  | cons p rest ih =>
    obtain ⟨k, r⟩ := p
    by_cases hk : k = key
    · subst hk
      simp only [mapSet, if_true, List.map_cons, List.mem_cons] at h ⊢
      rcases h with h | h
      · exact Or.inl h
      · exact Or.inr (Or.inr h)
    · simp only [mapSet, hk, if_false, List.map_cons, List.mem_cons] at h ⊢
      rcases h with h | h
      · exact Or.inr (Or.inl h)
      · rcases ih h with h' | h'
        · exact Or.inl h'
        · exact Or.inr (Or.inr h')

theorem nodup_keys_mapSet {V : Type} (m : List (String × V)) (key : String) (v : V)
    (h : (m.map Prod.fst).Nodup) : ((mapSet m key v).map Prod.fst).Nodup := by
  induction m with
  | nil => simp [mapSet]
  | cons p rest ih =>
    obtain ⟨k, r⟩ := p
    simp only [List.map_cons, List.nodup_cons] at h
    by_cases hk : k = key
    · subst hk
      simp only [mapSet, if_true, List.map_cons, List.nodup_cons]
      exact h
    · simp only [mapSet, hk, if_false, List.map_cons, List.nodup_cons]
      refine ⟨?_, ih h.2⟩
      intro hmem
      rcases mem_keys_mapSet rest key v k hmem with h' | h'
      · exact hk h'
      · exact h.1 h'

theorem mem_mapSet {V : Type} (m : List (String × V)) (key : String) (v : V) (p : String × V)
    (h : p ∈ mapSet m key v) : p = (key, v) ∨ p ∈ m := by
  induction m with
  | nil => simp [mapSet] at h; exact Or.inl h
  | cons q rest ih =>
    obtain ⟨k, r⟩ := q
    by_cases hk : k = key
    · simp only [mapSet, hk, if_true, List.mem_cons] at h ⊢
      rcases h with h | h
      · exact Or.inl h
      · exact Or.inr (Or.inr h)
    · simp only [mapSet, hk, if_false, List.mem_cons] at h ⊢
      rcases h with h | h
      · exact Or.inr (Or.inl h)
      · rcases ih h with h' | h'
        · exact Or.inl h'
        · exact Or.inr (Or.inr h')

/-- In a map without repeated keys, an entry is what a read of its key returns. -/
theorem mapGet_of_mem {V : Type} (m : List (String × V)) (key : String) (v : V)
    (hnd : (m.map Prod.fst).Nodup) (h : (key, v) ∈ m) : mapGet m key = some v := by
  induction m with
  | nil => cases h
  | cons q rest ih =>
    obtain ⟨k, r⟩ := q
    simp only [List.map_cons, List.nodup_cons] at hnd
    rcases List.mem_cons.mp h with h | h
    · cases h
      simp [mapGet]
    · have hne : k ≠ key := by
        intro hk
        subst hk
        exact hnd.1 (List.mem_map.mpr ⟨(k, v), h, rfl⟩)
      simp [mapGet, hne, ih hnd.2 h]

theorem StoreInv_nil : StoreInv [] := by
  constructor
  · simp
  · intro p hp
    cases hp

theorem StoreInv_mapSet (recs : List (String × Record)) (r : Record) (h : StoreInv recs) :
    StoreInv (mapSet recs (recordKey r.Table r.ID) r) := by
  refine ⟨nodup_keys_mapSet _ _ _ h.1, ?_⟩
  intro p hp
  rcases mem_mapSet _ _ _ _ hp with hp' | hp'
  · subst hp'
    rfl
  · exact h.2 p hp'

/-- The map after a call is the map before it, and then the call has not returned without
error; or the lock was free, the key held no record or a live one, and the map is the map
before with a record of version `now.UnixNano()` written under the key of the call. -/
theorem StoreCall_run_cases {ω : Type} (callbacks : List (Callback ω))
    (sm : MemoryStorageManager) (now : Time) (c : StoreCall) (w : ω) :
    ((c.run callbacks sm now w).sm.records = sm.records ∧
      (c.run callbacks sm now w).ret ≠ some (.ok ())) ∨
    (sm.recordsMux = false ∧
      ∃ r : Record, recordKey r.Table r.ID = c.key ∧ r.Version = now.UnixNano ∧
        (mapGet sm.records c.key = none ∨
          ∃ e, mapGet sm.records c.key = some e ∧ e.DeletedAt = none) ∧
        (c.run callbacks sm now w).sm.records = mapSet sm.records c.key r) := by
  obtain ⟨recs, mux⟩ := sm
  cases mux with
  | true =>
    left
    rw [StoreCall_run_held]
    simp
  | false =>
    cases c with
    | create table id data =>
      cases hg : mapGet recs (recordKey table id) with
      | some e =>
        left
        simp [StoreCall.run, CreateRecord_existing callbacks recs now table id data w e hg,
          Except.map]
      | none =>
        right
        refine ⟨rfl, createdRecord now table id data, rfl, rfl, Or.inl hg, ?_⟩
        simp [StoreCall.run, CreateRecord_fresh callbacks recs now table id data w hg,
          StoreCall.key]
    | update table id data =>
      cases hg : mapGet recs (recordKey table id) with
      | none =>
        left
        simp [StoreCall.run, UpdateRecord_absent callbacks recs now table id data w hg,
          Except.map]
      | some e =>
        cases hd : e.DeletedAt with
        | some t =>
          left
          have hd' : e.DeletedAt.isSome = true := by simp [hd]
          simp [StoreCall.run,
            UpdateRecord_tombstone callbacks recs now table id data w e hg hd', Except.map]
        | none =>
          right
          refine ⟨rfl, updatedRecord now table id data e, rfl, rfl, Or.inr ⟨e, hg, hd⟩, ?_⟩
          simp [StoreCall.run, UpdateRecord_live callbacks recs now table id data w e hg hd,
            StoreCall.key]
    | delete table id =>
      cases hg : mapGet recs (recordKey table id) with
      | none =>
        left
        simp [StoreCall.run, DeleteRecord_absent callbacks recs now table id w hg]
      | some e =>
        cases hd : e.DeletedAt with
        | some t =>
          left
          have hd' : e.DeletedAt.isSome = true := by simp [hd]
          simp [StoreCall.run, DeleteRecord_tombstone callbacks recs now table id w e hg hd']
        | none =>
          right
          refine ⟨rfl, tombstoneRecord now table id e, rfl, rfl, Or.inr ⟨e, hg, hd⟩, ?_⟩
          simp [StoreCall.run, DeleteRecord_live callbacks recs now table id w e hg hd,
            StoreCall.key]

/-- A call keeps the invariant of the map. -/
theorem StoreInv_run {ω : Type} (callbacks : List (Callback ω)) (sm : MemoryStorageManager)
    (now : Time) (c : StoreCall) (w : ω) (h : StoreInv sm.records) :
    StoreInv (c.run callbacks sm now w).sm.records := by
  rcases StoreCall_run_cases callbacks sm now c w with ⟨hrec, _⟩ | ⟨_, r, hkey, _, _, hrec⟩
  · rw [hrec]
    exact h
  · rw [hrec, ← hkey]
    exact StoreInv_mapSet _ r h

/-- A call leaves a tombstone where it is. -/
theorem tombstone_run {ω : Type} (callbacks : List (Callback ω)) (sm : MemoryStorageManager)
    (now : Time) (c : StoreCall) (w : ω) (key : String) (t : Record)
    (hg : mapGet sm.records key = some t) (hd : t.DeletedAt.isSome = true) :
    mapGet (c.run callbacks sm now w).sm.records key = some t := by
  rcases StoreCall_run_cases callbacks sm now c w with
    ⟨hrec, _⟩ | ⟨_, r, _, _, hfree | ⟨e, he, hlive⟩, hrec⟩
  · rw [hrec]
    exact hg
  · have hne : key ≠ c.key := by
      intro hk
      rw [hk, hfree] at hg
      cases hg
    rw [hrec, mapGet_mapSet_other _ _ _ _ hne]
    exact hg
  · have hne : key ≠ c.key := by
      intro hk
      rw [hk, he] at hg
      cases hg
      simp [hlive] at hd
    rw [hrec, mapGet_mapSet_other _ _ _ _ hne]
    exact hg

/-- With callbacks that return, a call leaves the lock free. -/
theorem free_run {ω : Type} (callbacks : List (Callback ω)) (hall : AllReturn callbacks)
    (sm : MemoryStorageManager) (now : Time) (c : StoreCall) (w : ω)
    (hfree : sm.recordsMux = false) : (c.run callbacks sm now w).sm.recordsMux = false := by
  obtain ⟨recs, mux⟩ := sm
  simp only at hfree
  subst hfree
  cases c with
  | create table id data =>
    cases hg : mapGet recs (recordKey table id) with
    | some e =>
      simp [StoreCall.run, CreateRecord_existing callbacks recs now table id data w e hg]
    | none =>
      simp [StoreCall.run, CreateRecord_fresh callbacks recs now table id data w hg,
        runCallbacks_of_allReturn callbacks hall]
  | update table id data =>
    cases hg : mapGet recs (recordKey table id) with
    | none => simp [StoreCall.run, UpdateRecord_absent callbacks recs now table id data w hg]
    | some e =>
      cases hd : e.DeletedAt with
      | some t =>
        have hd' : e.DeletedAt.isSome = true := by simp [hd]
        simp [StoreCall.run, UpdateRecord_tombstone callbacks recs now table id data w e hg hd']
      | none =>
        simp [StoreCall.run, UpdateRecord_live callbacks recs now table id data w e hg hd,
          runCallbacks_of_allReturn callbacks hall]
  | delete table id =>
    cases hg : mapGet recs (recordKey table id) with
    | none => simp [StoreCall.run, DeleteRecord_absent callbacks recs now table id w hg]
    | some e =>
      cases hd : e.DeletedAt with
      | some t =>
        have hd' : e.DeletedAt.isSome = true := by simp [hd]
        simp [StoreCall.run, DeleteRecord_tombstone callbacks recs now table id w e hg hd']
      | none =>
        simp [StoreCall.run, DeleteRecord_live callbacks recs now table id w e hg hd,
          runCallbacks_of_allReturn callbacks hall]

theorem runCalls_append {ω : Type} (callbacks : List (Callback ω))
    (xs ys : List (StoreCall × Time)) (sm : MemoryStorageManager) (w : ω) :
    runCalls callbacks (xs ++ ys) sm w
      = runCalls callbacks ys (runCalls callbacks xs sm w).1 (runCalls callbacks xs sm w).2 := by
  induction xs generalizing sm w with
  | nil => rfl
  | cons x rest ih =>
    obtain ⟨c, now⟩ := x
    simp only [List.cons_append, runCalls]
    exact ih _ _

theorem StoreInv_runCalls {ω : Type} (callbacks : List (Callback ω))
    (calls : List (StoreCall × Time)) (sm : MemoryStorageManager) (w : ω)
    (h : StoreInv sm.records) : StoreInv (runCalls callbacks calls sm w).1.records := by
  induction calls generalizing sm w with
  | nil => exact h
  | cons x rest ih =>
    obtain ⟨c, now⟩ := x
    exact ih _ _ (StoreInv_run callbacks sm now c w h)

theorem tombstone_runCalls {ω : Type} (callbacks : List (Callback ω))
    (calls : List (StoreCall × Time)) (sm : MemoryStorageManager) (w : ω) (key : String)
    (t : Record) (hg : mapGet sm.records key = some t) (hd : t.DeletedAt.isSome = true) :
    mapGet (runCalls callbacks calls sm w).1.records key = some t := by
  induction calls generalizing sm w with
  | nil => exact hg
  | cons x rest ih =>
    obtain ⟨c, now⟩ := x
    exact ih _ _ (tombstone_run callbacks sm now c w key t hg hd)

theorem free_runCalls {ω : Type} (callbacks : List (Callback ω)) (hall : AllReturn callbacks)
    (calls : List (StoreCall × Time)) (sm : MemoryStorageManager) (w : ω)
    (hfree : sm.recordsMux = false) :
    (runCalls callbacks calls sm w).1.recordsMux = false := by
  induction calls generalizing sm w with
  | nil => exact hfree
  | cons x rest ih =>
    obtain ⟨c, now⟩ := x
    exact ih _ _ (free_run callbacks hall sm now c w hfree)

/-! ## Soft-delete finality -/

/-- A `DeleteRecord` that returns without error leaves a tombstone with empty data under
the key, and the lock free. -/
theorem DeleteRecord_ok_tombstone {ω : Type} (callbacks : List (Callback ω))
    (sm : MemoryStorageManager) (now : Time) (table id : String) (w : ω)
    (h : (DeleteRecord callbacks sm now table id w).ret = some (.ok ())) :
    (DeleteRecord callbacks sm now table id w).sm.recordsMux = false ∧
    ∃ r, mapGet (DeleteRecord callbacks sm now table id w).sm.records (recordKey table id)
        = some r ∧ r.DeletedAt.isSome = true ∧ r.Data = [] := by
  obtain ⟨recs, mux⟩ := sm
  cases mux with
  | true => simp [DeleteRecord] at h
  | false =>
    cases hg : mapGet recs (recordKey table id) with
    | none => simp [DeleteRecord_absent callbacks recs now table id w hg] at h
    | some e =>
      cases hd : e.DeletedAt with
      | some t =>
        have hd' : e.DeletedAt.isSome = true := by simp [hd]
        simp [DeleteRecord_tombstone callbacks recs now table id w e hg hd'] at h
      | none =>
        rw [DeleteRecord_live callbacks recs now table id w e hg hd] at h ⊢
        have hflag : (runCallbacks callbacks (tombstoneRecord now table id e)
            ⟨mapSet recs (recordKey table id) (tombstoneRecord now table id e), true⟩ w).2
            = true := by
          by_contra hf
          simp [hf] at h
        refine ⟨by simp [hflag], tombstoneRecord now table id e, mapGet_mapSet_same _ _ _,
          rfl, rfl⟩

/-- Where the key of (table, id) holds a tombstone, the live records of the table do not
include that id. -/
theorem GetAllRecords_without_tombstone (sm : MemoryStorageManager) (table id : String)
    (t : Record) (hinv : StoreInv sm.records) (hfree : sm.recordsMux = false)
    (hg : mapGet sm.records (recordKey table id) = some t)
    (hd : t.DeletedAt.isSome = true) :
    ∃ l, GetAllRecords sm table = some l ∧ ∀ r ∈ l, r.ID ≠ id := by
  have hall : GetAllRecords sm table
      = some (sm.records.filterMap fun p =>
          if p.2.Table = table ∧ p.2.DeletedAt = none then
            some { p.2 with Data := copyData p.2.Data }
          else none) := by
    simp [GetAllRecords, hfree]
  refine ⟨_, hall, ?_⟩
  intro r hr hid
  obtain ⟨p, hp, hpr⟩ := List.mem_filterMap.mp hr
  by_cases hc : p.2.Table = table ∧ p.2.DeletedAt = none
  · rw [if_pos hc] at hpr
    simp only [Option.some.injEq] at hpr
    have hpid : p.2.ID = id := by rw [← hid, ← hpr]
    have hkey : p.1 = recordKey table id := by rw [hinv.2 p hp, hc.1, hpid]
    have hget : mapGet sm.records (recordKey table id) = some p.2 := by
      apply mapGet_of_mem _ _ _ hinv.1
      rw [← hkey]
      exact hp
    rw [hget] at hg
    cases hg
    simp [hc.2] at hd
  · rw [if_neg hc] at hpr
    cases hpr

/-- C13: on a store whose callbacks return, started empty and taken through any calls,
once a `DeleteRecord(t, i)` has returned without error, after any further `CreateRecord`,
`UpdateRecord` and `DeleteRecord` calls `GetRecord(t, i)` returns a record with `deleted_at`
set and empty data, `UpdateRecord(t, i, _)` returns not-found, and `GetAllRecords(t)`
holds no record of id `i`. -/
theorem soft_delete_final {ω : Type} (callbacks : List (Callback ω))
    (hall : AllReturn callbacks) (before after : List (StoreCall × Time)) (now : Time)
    (t i : String) (w : ω)
    (hdel : (DeleteRecord callbacks
        (runCalls callbacks before NewMemoryStorageManager w).1 now t i
        (runCalls callbacks before NewMemoryStorageManager w).2).ret = some (.ok ())) :
    (∃ r, GetRecord
          (runCalls callbacks (before ++ (.delete t i, now) :: after)
            NewMemoryStorageManager w).1 t i = some (.ok r) ∧
        r.DeletedAt.isSome = true ∧ r.Data = []) ∧
    (∀ (now' : Time) (data : JsonMap) (w' : ω),
      (UpdateRecord callbacks
          (runCalls callbacks (before ++ (.delete t i, now) :: after)
            NewMemoryStorageManager w).1 now' t i data w').ret
        = some (.error (.notFound t i))) ∧
    (∃ l, GetAllRecords
          (runCalls callbacks (before ++ (.delete t i, now) :: after)
            NewMemoryStorageManager w).1 t = some l ∧
        ∀ r ∈ l, r.ID ≠ i) := by
  obtain ⟨hfree₁, tomb, hg₁, hd, hdata⟩ := DeleteRecord_ok_tombstone callbacks _ now t i _ hdel
  have hsplit : runCalls callbacks (before ++ (.delete t i, now) :: after)
        NewMemoryStorageManager w
      = runCalls callbacks after
          (DeleteRecord callbacks (runCalls callbacks before NewMemoryStorageManager w).1
            now t i (runCalls callbacks before NewMemoryStorageManager w).2).sm
          (DeleteRecord callbacks (runCalls callbacks before NewMemoryStorageManager w).1
            now t i (runCalls callbacks before NewMemoryStorageManager w).2).world := by
    rw [runCalls_append]
    rfl
  have hinv₀ : StoreInv (runCalls callbacks before NewMemoryStorageManager w).1.records :=
    StoreInv_runCalls callbacks before _ w StoreInv_nil
  have hinv₁ := StoreInv_run callbacks _ now (.delete t i)
    (runCalls callbacks before NewMemoryStorageManager w).2 hinv₀
  rw [hsplit]
  generalize hfin : runCalls callbacks after _ _ = fin
  have hg : mapGet fin.1.records (recordKey t i) = some tomb := by
    rw [← hfin]
    exact tombstone_runCalls callbacks after _ _ _ tomb hg₁ hd
  have hfree : fin.1.recordsMux = false := by
    rw [← hfin]
    exact free_runCalls callbacks hall after _ _ hfree₁
  have hinv : StoreInv fin.1.records := by
    rw [← hfin]
    exact StoreInv_runCalls callbacks after _ _ hinv₁
  obtain ⟨⟨recs, mux⟩, wfin⟩ := fin
  simp only at hg hfree hinv
  subst hfree
  refine ⟨⟨tomb, GetRecord_free _ _ _ _ hg, hd, hdata⟩, ?_, ?_⟩
  · intro now' data w'
    rw [UpdateRecord_tombstone callbacks recs now' t i data w' tomb hg hd]
  · exact GetAllRecords_without_tombstone ⟨recs, false⟩ t i tomb hinv rfl hg hd

/-- C13 on a store without callbacks: `demo-1` is created and deleted; a create, an update
and a delete of it and a create of `demo-2` follow. -/
theorem soft_delete_final_witness :
    AllReturn ([] : List (Callback Unit)) ∧
    (DeleteRecord ([] : List (Callback Unit))
        (runCalls ([] : List (Callback Unit)) createDemo NewMemoryStorageManager ()).1 ⟨200⟩
        "diary_entries" "demo-1"
        (runCalls ([] : List (Callback Unit)) createDemo NewMemoryStorageManager ()).2).ret
      = some (.ok ()) ∧
    (∃ r, GetRecord
          (runCalls ([] : List (Callback Unit))
            (createDemo ++ (.delete "diary_entries" "demo-1", ⟨200⟩) :: reviveCalls)
            NewMemoryStorageManager ()).1 "diary_entries" "demo-1" = some (.ok r) ∧
        r.DeletedAt.isSome = true ∧ r.Data = []) ∧
    (UpdateRecord ([] : List (Callback Unit))
        (runCalls ([] : List (Callback Unit))
          (createDemo ++ (.delete "diary_entries" "demo-1", ⟨200⟩) :: reviveCalls)
          NewMemoryStorageManager ()).1 ⟨700⟩ "diary_entries" "demo-1" [] ()).ret
      = some (.error (.notFound "diary_entries" "demo-1")) ∧
    (∃ l, GetAllRecords
          (runCalls ([] : List (Callback Unit))
            (createDemo ++ (.delete "diary_entries" "demo-1", ⟨200⟩) :: reviveCalls)
            NewMemoryStorageManager ()).1 "diary_entries" = some l ∧
        ∀ r ∈ l, r.ID ≠ "demo-1") :=
  ⟨allReturn_nil, by rfl,
    (soft_delete_final ([] : List (Callback Unit)) allReturn_nil createDemo reviveCalls
      ⟨200⟩ "diary_entries" "demo-1" () (by rfl)).1,
    (soft_delete_final ([] : List (Callback Unit)) allReturn_nil createDemo reviveCalls
      ⟨200⟩ "diary_entries" "demo-1" () (by rfl)).2.1 ⟨700⟩ [] (),
    (soft_delete_final ([] : List (Callback Unit)) allReturn_nil createDemo reviveCalls
      ⟨200⟩ "diary_entries" "demo-1" () (by rfl)).2.2⟩

/-! ## Records since a version -/

theorem record_copy_eq (r : Record) : { r with Data := copyData r.Data } = r := by
  rw [copyData_eq]

/-- What `GetRecordsSinceVersion` returns, order apart: the stored records of the table
with a version above `sinceVersion`, tombstones included. -/
theorem mem_GetRecordsSinceVersion (sm : MemoryStorageManager) (table : String)
    (sinceVersion : Int) (hfree : sm.recordsMux = false) :
    ∃ l, GetRecordsSinceVersion sm table sinceVersion = some l ∧
      ∀ r, r ∈ l ↔ ∃ key, (key, r) ∈ sm.records ∧ r.Table = table ∧ r.Version > sinceVersion := by
  have hall : GetRecordsSinceVersion sm table sinceVersion
      = some (sm.records.filterMap fun p =>
          if p.2.Table = table ∧ p.2.Version > sinceVersion then
            some { p.2 with Data := copyData p.2.Data }
          else none) := by
    simp [GetRecordsSinceVersion, hfree]
  refine ⟨_, hall, ?_⟩
  intro r
  rw [List.mem_filterMap]
  constructor
  · rintro ⟨p, hp, hpr⟩
    by_cases hc : p.2.Table = table ∧ p.2.Version > sinceVersion
    · rw [if_pos hc, record_copy_eq] at hpr
      simp only [Option.some.injEq] at hpr
      subst hpr
      exact ⟨p.1, hp, hc.1, hc.2⟩
    · rw [if_neg hc] at hpr
      cases hpr
  · rintro ⟨key, hmem, htable, hversion⟩
    refine ⟨(key, r), hmem, ?_⟩
    simp only
    rw [if_pos ⟨htable, hversion⟩, record_copy_eq]

/-- C14 fails in the code for the order: after create `a` at 100, create `b` at 200 and
update `a` at 300, the map holds `a` of version 300 and `b` of version 200, and
`GetRecordsSinceVersion("diary_entries", 0)`, which walks the map and does not sort, returns
them in that order: the versions 300, 200 are not ascending. -/
theorem GetRecordsSinceVersion_not_ascending :
    (runCalls ([] : List (Callback Unit)) threeCalls NewMemoryStorageManager ()).1
      = ⟨[("diary_entries:a",
            { ID := "a", Table := "diary_entries", Data := [("n", "1")], Version := 300,
              CreatedAt := ⟨100⟩, UpdatedAt := ⟨300⟩, DeletedAt := none }),
          ("diary_entries:b",
            { ID := "b", Table := "diary_entries", Data := [], Version := 200,
              CreatedAt := ⟨200⟩, UpdatedAt := ⟨200⟩, DeletedAt := none })], false⟩ ∧
    (GetRecordsSinceVersion
        (runCalls ([] : List (Callback Unit)) threeCalls NewMemoryStorageManager ()).1
        "diary_entries" 0).map (fun l => l.map fun r => (r.ID, r.Version))
      = some [("a", 300), ("b", 200)] ∧
    ¬ List.Pairwise (fun x y : Int => x ≤ y) [300, 200] := by
  decide

/-! ## Versions and the clock -/

/-- Every entry of the version trace pairs a clock reading with its `UnixNano`. -/
theorem versionTrace_eq_clock {ω : Type} (callbacks : List (Callback ω))
    (calls : List (StoreCall × Time)) (sm : MemoryStorageManager) (w : ω) :
    ∀ p ∈ versionTrace callbacks calls sm w, p.2 = p.1.UnixNano := by
  induction calls generalizing sm w with
  | nil =>
    intro p hp
    cases hp
  | cons x rest ih =>
    obtain ⟨c, now⟩ := x
    intro p hp
    simp only [versionTrace] at hp
    split at hp
    · rename_i u r hret hget
      rcases List.mem_cons.mp hp with hp' | hp'
      · subst hp'
        rcases StoreCall_run_cases callbacks sm now c w with
          ⟨_, hne⟩ | ⟨_, r', _, hver, _, hrec⟩
        · exact absurd hret hne
        · rw [hrec, mapGet_mapSet_same] at hget
          cases hget
          exact hver
      · exact ih _ _ p hp'
    · exact ih _ _ p hp

/-- C15, as stated, fails: a create at clock reading 1000 and an update of the same record
at the earlier reading 500 both return without error; the versions produced are 1000 and
then 500, and the stored version has decreased. -/
theorem versions_follow_clock_back :
    versionTrace ([] : List (Callback Unit)) clockStepsBack NewMemoryStorageManager ()
      = [(⟨1000⟩, 1000), (⟨500⟩, 500)] ∧
    ¬ List.Pairwise (fun x y : Int => x < y)
        ((versionTrace ([] : List (Callback Unit)) clockStepsBack NewMemoryStorageManager
          ()).map Prod.snd) ∧
    (mapGet (runCalls ([] : List (Callback Unit)) clockStepsBack NewMemoryStorageManager
        ()).1.records (recordKey "diary_entries" "demo-1")).map Record.Version
      = some 500 := by
  decide

/-- C15 (amended): in every sequence of calls on one store, each call that returns without
error stores a record whose version is the `UnixNano` of the clock reading given to that
call; so when these readings are strictly increasing, the versions are strictly increasing
in call order. -/
theorem versions_increase_with_clock {ω : Type} (callbacks : List (Callback ω))
    (calls : List (StoreCall × Time)) (sm : MemoryStorageManager) (w : ω)
    (hclock : List.Pairwise (fun x y : Int => x < y)
      ((versionTrace callbacks calls sm w).map fun p => p.1.UnixNano)) :
    (∀ p ∈ versionTrace callbacks calls sm w, p.2 = p.1.UnixNano) ∧
    List.Pairwise (fun x y : Int => x < y)
      ((versionTrace callbacks calls sm w).map Prod.snd) := by
  have heq := versionTrace_eq_clock callbacks calls sm w
  refine ⟨heq, ?_⟩
  have hmap : (versionTrace callbacks calls sm w).map Prod.snd
      = (versionTrace callbacks calls sm w).map fun p => p.1.UnixNano :=
    List.map_congr_left heq
  rw [hmap]
  exact hclock

/-- The amended C15 at the three calls of clock readings 100, 200 and 300. -/
theorem versions_increase_with_clock_witness :
    List.Pairwise (fun x y : Int => x < y)
      ((versionTrace ([] : List (Callback Unit)) threeCalls NewMemoryStorageManager ()).map
        fun p => p.1.UnixNano) ∧
    List.Pairwise (fun x y : Int => x < y)
      ((versionTrace ([] : List (Callback Unit)) threeCalls NewMemoryStorageManager ()).map
        Prod.snd) :=
  ⟨by decide,
    (versions_increase_with_clock ([] : List (Callback Unit)) threeCalls
      NewMemoryStorageManager () (by decide)).2⟩

/-! ## The callback fan-out of the store -/

theorem foldl_AddCallback {ω : Type} (init callbacks : List (Callback ω)) :
    callbacks.foldl AddCallback init = init ++ callbacks := by
  induction callbacks generalizing init with
  | nil => simp
  | cons cb rest ih => simp [List.foldl_cons, ih, AddCallback]

/-- The fan-out over callbacks that note their calls returns exactly when the fan-out over
the callbacks themselves does, and then each callback has noted the record once, in the
order of the list. -/
theorem runCallbacks_tracedFrom {ω : Type} (callbacks : List (Callback ω)) (n : Nat)
    (record : Record) (sm : MemoryStorageManager) (w : ω) (log : List (Nat × Record)) :
    (runCallbacks (tracedFrom callbacks n) record sm (w, log)).2
        = (runCallbacks callbacks record sm w).2 ∧
    ((runCallbacks callbacks record sm w).2 = true →
      (runCallbacks (tracedFrom callbacks n) record sm (w, log)).1
        = ((runCallbacks callbacks record sm w).1,
            log ++ (List.range' n callbacks.length).map fun k => (k, record))) := by
  induction callbacks generalizing n w log with
  | nil => simp [tracedFrom, runCallbacks]
  | cons cb rest ih =>
    cases hcb : cb record sm w with
    | none => simp [tracedFrom, runCallbacks, traced, hcb]
    | some w' =>
      have h := ih (n + 1) w' (log ++ [(n, record)])
      simp only [tracedFrom, runCallbacks, traced, hcb, Option.map_some', List.length_cons]
      refine ⟨h.1, ?_⟩
      intro hflag
      rw [h.2 hflag, List.range'_succ]
      simp

/-- C16: let the callbacks of a list be registered with `AddCallback` in the order of the
list, each noting the record it is called with.  When `CreateRecord` or `UpdateRecord`
returns a record, or `DeleteRecord` returns without error, the notes made during the call
are one per callback, in registration order, each of the record the call has stored under
the key (the tombstone for a delete). -/
theorem callbacks_run_once_in_order {ω : Type} (callbacks : List (Callback ω))
    (sm : MemoryStorageManager) (now : Time) (table id : String) (data : JsonMap) (w : ω)
    (log : List (Nat × Record)) :
    (∀ r, (CreateRecord (tracedFrom (callbacks.foldl AddCallback []) 0) sm now table id data
          (w, log)).ret = some (.ok r) →
      mapGet (CreateRecord (tracedFrom (callbacks.foldl AddCallback []) 0) sm now table id
          data (w, log)).sm.records (recordKey table id) = some r ∧
      (CreateRecord (tracedFrom (callbacks.foldl AddCallback []) 0) sm now table id data
          (w, log)).world.2
        = log ++ (List.range callbacks.length).map fun k => (k, r)) ∧
    (∀ r, (UpdateRecord (tracedFrom (callbacks.foldl AddCallback []) 0) sm now table id data
          (w, log)).ret = some (.ok r) →
      mapGet (UpdateRecord (tracedFrom (callbacks.foldl AddCallback []) 0) sm now table id
          data (w, log)).sm.records (recordKey table id) = some r ∧
      (UpdateRecord (tracedFrom (callbacks.foldl AddCallback []) 0) sm now table id data
          (w, log)).world.2
        = log ++ (List.range callbacks.length).map fun k => (k, r)) ∧
    ((DeleteRecord (tracedFrom (callbacks.foldl AddCallback []) 0) sm now table id
          (w, log)).ret = some (.ok ()) →
      ∃ r, mapGet (DeleteRecord (tracedFrom (callbacks.foldl AddCallback []) 0) sm now table
            id (w, log)).sm.records (recordKey table id) = some r ∧
        r.DeletedAt = some now ∧
        (DeleteRecord (tracedFrom (callbacks.foldl AddCallback []) 0) sm now table id
            (w, log)).world.2
          = log ++ (List.range callbacks.length).map fun k => (k, r)) := by
  rw [foldl_AddCallback, List.nil_append]
  obtain ⟨recs, mux⟩ := sm
  cases mux with
  | true => simp [CreateRecord, UpdateRecord, DeleteRecord]
  | false =>
    refine ⟨?_, ?_, ?_⟩
    · intro r hr
      cases hg : mapGet recs (recordKey table id) with
      | some e => simp [CreateRecord_existing _ recs now table id data (w, log) e hg] at hr
      | none =>
        rw [CreateRecord_fresh _ recs now table id data (w, log) hg] at hr ⊢
        obtain ⟨hflag, hlog⟩ := runCallbacks_tracedFrom callbacks 0
          (createdRecord now table id data)
          ⟨mapSet recs (recordKey table id) (createdRecord now table id data), true⟩ w log
        by_cases hf : (runCallbacks callbacks (createdRecord now table id data)
            ⟨mapSet recs (recordKey table id) (createdRecord now table id data), true⟩ w).2
            = true
        · rw [hflag, hf] at hr
          simp only [if_true, Option.some.injEq, Except.ok.injEq] at hr
          subst hr
          refine ⟨mapGet_mapSet_same _ _ _, ?_⟩
          simp only
          rw [hlog hf, List.range_eq_range']
        · rw [hflag] at hr
          simp [hf] at hr
    · intro r hr
      cases hg : mapGet recs (recordKey table id) with
      | none => simp [UpdateRecord_absent _ recs now table id data (w, log) hg] at hr
      | some e =>
        cases hd : e.DeletedAt with
        | some t =>
          have hd' : e.DeletedAt.isSome = true := by simp [hd]
          simp [UpdateRecord_tombstone _ recs now table id data (w, log) e hg hd'] at hr
        | none =>
          rw [UpdateRecord_live _ recs now table id data (w, log) e hg hd] at hr ⊢
          obtain ⟨hflag, hlog⟩ := runCallbacks_tracedFrom callbacks 0
            (updatedRecord now table id data e)
            ⟨mapSet recs (recordKey table id) (updatedRecord now table id data e), true⟩ w log
          by_cases hf : (runCallbacks callbacks (updatedRecord now table id data e)
              ⟨mapSet recs (recordKey table id) (updatedRecord now table id data e), true⟩
              w).2 = true
          · rw [hflag, hf] at hr
            simp only [if_true, Option.some.injEq, Except.ok.injEq] at hr
            subst hr
            refine ⟨mapGet_mapSet_same _ _ _, ?_⟩
            simp only
            rw [hlog hf, List.range_eq_range']
          · rw [hflag] at hr
            simp [hf] at hr
    · intro hr
      cases hg : mapGet recs (recordKey table id) with
      | none => simp [DeleteRecord_absent _ recs now table id (w, log) hg] at hr
      | some e =>
        cases hd : e.DeletedAt with
        | some t =>
          have hd' : e.DeletedAt.isSome = true := by simp [hd]
          simp [DeleteRecord_tombstone _ recs now table id (w, log) e hg hd'] at hr
        | none =>
          rw [DeleteRecord_live _ recs now table id (w, log) e hg hd] at hr ⊢
          obtain ⟨hflag, hlog⟩ := runCallbacks_tracedFrom callbacks 0
            (tombstoneRecord now table id e)
            ⟨mapSet recs (recordKey table id) (tombstoneRecord now table id e), true⟩ w log
          by_cases hf : (runCallbacks callbacks (tombstoneRecord now table id e)
              ⟨mapSet recs (recordKey table id) (tombstoneRecord now table id e), true⟩
              w).2 = true
          · refine ⟨tombstoneRecord now table id e, mapGet_mapSet_same _ _ _, rfl, ?_⟩
            simp only
            rw [hlog hf, List.range_eq_range']
          · rw [hflag] at hr
            simp [hf] at hr

/-- C16 with two callbacks that return, on the store that holds `demoRecord`: the create of
`demo-2` returns a record that each callback has noted once, first callback first. -/
theorem callbacks_run_once_in_order_witness :
    ∃ r, (CreateRecord (tracedFrom (demoCallbacks.foldl AddCallback []) 0) demoStore ⟨1000⟩
          "diary_entries" "demo-2" [] (0, [])).ret = some (.ok r) ∧
      mapGet (CreateRecord (tracedFrom (demoCallbacks.foldl AddCallback []) 0) demoStore
          ⟨1000⟩ "diary_entries" "demo-2" [] (0, [])).sm.records
          (recordKey "diary_entries" "demo-2") = some r ∧
      (CreateRecord (tracedFrom (demoCallbacks.foldl AddCallback []) 0) demoStore ⟨1000⟩
          "diary_entries" "demo-2" [] (0, [])).world.2 = [(0, r), (1, r)] :=
  ⟨createdRecord ⟨1000⟩ "diary_entries" "demo-2" [], by rfl,
    ((callbacks_run_once_in_order demoCallbacks demoStore ⟨1000⟩ "diary_entries" "demo-2" []
      0 []).1 (createdRecord ⟨1000⟩ "diary_entries" "demo-2" []) (by rfl)).1,
    ((callbacks_run_once_in_order demoCallbacks demoStore ⟨1000⟩ "diary_entries" "demo-2" []
      0 []).1 (createdRecord ⟨1000⟩ "diary_entries" "demo-2" []) (by rfl)).2⟩

/-! ## Discovery: service entries -/

theorem foldl_deviceTracer (device : Device) (n : Nat) (log : List (Nat × Device)) :
    ((List.range n).map deviceTracer).foldl (fun w' callback => callback device w') log
      = log ++ (List.range n).map fun k => (k, device) := by
  induction n with
  | zero => simp
  | succ n ih =>
    rw [List.range_succ, List.map_append, List.foldl_append, ih]
    simp [deviceTracer]

theorem bytes_account_id : bytes "account_id" = [97, 99, 99, 111, 117, 110, 116, 95, 105, 100] := by
  decide

theorem bytes_device_name :
    bytes "device_name" = [100, 101, 118, 105, 99, 101, 95, 110, 97, 109, 101] := by
  decide

/-- The loop reads `account_id=a` as the account id `a` and keeps the device name. -/
theorem scanTXT_account (vars : Bytes × Bytes) (a : Bytes) :
    scanTXT vars (bytes "account_id=" ++ a) = (a, vars.2) := by
  have hlit : bytes "account_id=" = [97, 99, 99, 111, 117, 110, 116, 95, 105, 100, 61] := by
    decide
  have hgt : 11 + a.length > 10 := by omega
  simp only [scanTXT, hlit, bytes_account_id, bytes_device_name]
  simp [hgt]

/-- The loop reads `device_name=d` as the device name `d` and keeps the account id. -/
theorem scanTXT_device (vars : Bytes × Bytes) (d : Bytes) :
    scanTXT vars (bytes "device_name=" ++ d) = (vars.1, d) := by
  have hlit : bytes "device_name="
      = [100, 101, 118, 105, 99, 101, 95, 110, 97, 109, 101, 61] := by
    decide
  have hgt : 12 + d.length > 11 := by omega
  simp only [scanTXT, hlit, bytes_account_id, bytes_device_name]
  simp [hgt]

/-- The TXT strings a device registers are read back as its account id and name. -/
theorem extractTXT_txtRecords (dm : DiscoveryManager) :
    extractTXT (txtRecords dm) = (dm.accountID, dm.deviceName) := by
  have hv : ∀ vars : Bytes × Bytes, scanTXT vars (bytes "version=1.0") = vars := by
    intro vars
    have h1 : (bytes "version=1.0").take 10 ≠ bytes "account_id" := by decide
    have h2 : ¬ ((bytes "version=1.0").length > 11) := by decide
    simp [scanTXT, h1, h2]
  simp only [extractTXT, txtRecords, List.foldl_cons, List.foldl_nil, scanTXT_account,
    scanTXT_device, hv]

/-- The cuts of the loop count bytes: in `device_nameéx` the twelfth byte is the first of
the two bytes of `é`, and the device name extracted is the second of them followed by
`x`. -/
theorem extractTXT_cuts_bytes :
    bytes "device_nameéx"
      = [100, 101, 118, 105, 99, 101, 95, 110, 97, 109, 101, 195, 169, 120] ∧
    extractTXT [bytes "account_id=abab", bytes "device_nameéx"] = (bytes "abab", [169, 120]) := by
  decide

/-- What `handleServiceEntry` does with the values its loop extracts, for an entry with at
least one address and a non-empty account id extracted: if the account id and the device
name extracted are those of this device, nothing changes and no callback is called;
otherwise the device, with the first IPv4 address or else the first IPv6 one, is written
under the account id extracted, the entries under other keys are left alone, and every
callback is called once, in order, with that device. -/
theorem handleServiceEntry_on_extracted {ω : Type} (callbacks : List (DeviceCallback ω))
    (dm : DiscoveryManager) (entry : ServiceEntry) (w : ω)
    (hip : entry.AddrIPv4 ≠ [] ∨ entry.AddrIPv6 ≠ [])
    (hacc : (extractTXT entry.Text).1 ≠ []) :
    (((extractTXT entry.Text).1 = dm.accountID ∧ (extractTXT entry.Text).2 = dm.deviceName) →
      handleServiceEntry callbacks dm entry w = (dm, w)) ∧
    (¬ ((extractTXT entry.Text).1 = dm.accountID ∧
          (extractTXT entry.Text).2 = dm.deviceName) →
      ∃ ip, (entry.AddrIPv4 ++ entry.AddrIPv6).head? = some ip ∧
        handleServiceEntry callbacks dm entry w
          = ({ dm with
                devices := mapSet dm.devices (extractTXT entry.Text).1
                  (discoveredDevice entry ip (extractTXT entry.Text).1) },
              callbacks.foldl (fun w' callback => callback
                (discoveredDevice entry ip (extractTXT entry.Text).1) w') w) ∧
        mapGet (handleServiceEntry callbacks dm entry w).1.devices (extractTXT entry.Text).1
          = some (discoveredDevice entry ip (extractTXT entry.Text).1) ∧
        (∀ other, other ≠ (extractTXT entry.Text).1 →
          mapGet (handleServiceEntry callbacks dm entry w).1.devices other
            = mapGet dm.devices other) ∧
        (∀ (n : Nat) (log : List (Nat × Device)),
          (handleServiceEntry ((List.range n).map deviceTracer) dm entry log).2
            = log ++ (List.range n).map fun k =>
                (k, (discoveredDevice entry ip (extractTXT entry.Text).1)))) := by
  have hshape : ∀ {σ : Type} (cbs : List (DeviceCallback σ)) (v : σ),
      ¬ ((extractTXT entry.Text).1 = dm.accountID ∧
          (extractTXT entry.Text).2 = dm.deviceName) →
      ∃ ip, (entry.AddrIPv4 ++ entry.AddrIPv6).head? = some ip ∧
        handleServiceEntry cbs dm entry v
          = ({ dm with
                devices := mapSet dm.devices (extractTXT entry.Text).1
                  (discoveredDevice entry ip (extractTXT entry.Text).1) },
              cbs.foldl (fun w' callback => callback
                (discoveredDevice entry ip (extractTXT entry.Text).1) w') v) := by
    intro σ cbs v hself
    cases h4 : entry.AddrIPv4 with
    | cons ip rest =>
      exact ⟨ip, by simp, by simp [handleServiceEntry, h4, hacc, hself, discoveredDevice]⟩
    | nil =>
      cases h6 : entry.AddrIPv6 with
      | cons ip rest =>
        exact ⟨ip, by simp,
          by simp [handleServiceEntry, h4, h6, hacc, hself, discoveredDevice]⟩
      | nil => simp [h4, h6] at hip
  refine ⟨?_, ?_⟩
  · intro hs
    cases h4 : entry.AddrIPv4 with
    | cons ip rest => simp [handleServiceEntry, h4, hs]
    | nil =>
      cases h6 : entry.AddrIPv6 with
      | cons ip rest => simp [handleServiceEntry, h4, h6, hs]
      | nil => simp [handleServiceEntry, h4, h6]
  · intro hs
    obtain ⟨ip, hhead, heq⟩ := hshape callbacks w hs
    refine ⟨ip, hhead, heq, ?_, ?_, ?_⟩
    · rw [heq]
      exact mapGet_mapSet_same _ _ _
    · intro other hother
      rw [heq]
      exact mapGet_mapSet_other _ _ _ _ hother
    · intro n log
      obtain ⟨ip', hhead', heq'⟩ := hshape ((List.range n).map deviceTracer) log hs
      rw [hhead] at hhead'
      cases hhead'
      rw [heq']
      exact foldl_deviceTracer _ n log

/-- For an entry that carries the TXT strings a device registers with `Start`, with at
least one address and a non-empty account id: when the account id and the device name
registered are those of this device, nothing changes and no callback is called; otherwise
the device is written under the account id registered and every callback is called with
it, in order. -/
theorem handleServiceEntry_registered {ω : Type} (callbacks : List (DeviceCallback ω))
    (dm peer : DiscoveryManager) (entry : ServiceEntry) (w : ω)
    (hip : entry.AddrIPv4 ≠ [] ∨ entry.AddrIPv6 ≠ [])
    (htxt : entry.Text = txtRecords peer) (hacc : peer.accountID ≠ []) :
    ((peer.accountID = dm.accountID ∧ peer.deviceName = dm.deviceName) →
      handleServiceEntry callbacks dm entry w = (dm, w)) ∧
    (¬ (peer.accountID = dm.accountID ∧ peer.deviceName = dm.deviceName) →
      ∃ ip, (entry.AddrIPv4 ++ entry.AddrIPv6).head? = some ip ∧
        handleServiceEntry callbacks dm entry w
          = ({ dm with
                devices := mapSet dm.devices peer.accountID
                  (discoveredDevice entry ip peer.accountID) },
              callbacks.foldl (fun w' callback => callback
                (discoveredDevice entry ip peer.accountID) w') w)) := by
  have hex : extractTXT entry.Text = (peer.accountID, peer.deviceName) := by
    rw [htxt, extractTXT_txtRecords]
  have h := handleServiceEntry_on_extracted callbacks dm entry w hip (by rw [hex]; exact hacc)
  rw [hex] at h
  refine ⟨h.1, fun hne => ?_⟩
  obtain ⟨ip, hhead, heq, _⟩ := h.2 hne
  exact ⟨ip, hhead, heq⟩

/-- C17 fails in the code: the entry has an address and, read as `key=value` pairs, the
account id `abab` and the device name `alpha` of this device, and a third TXT string
`device_names=beta`.  The loop of `handleServiceEntry` takes that string for a device name
and extracts `=beta`; the entry is not discarded: the device is written under `abab` and
the callback is called with it. -/
theorem handleServiceEntry_stores_own_entry :
    ownEntryWithStrayKey.AddrIPv4 ≠ [] ∧
    txtValue (bytes "account_id") ownEntryWithStrayKey.Text = thisDevice.accountID ∧
    txtValue (bytes "device_name") ownEntryWithStrayKey.Text = thisDevice.deviceName ∧
    thisDevice.accountID ≠ [] ∧
    extractTXT ownEntryWithStrayKey.Text = (bytes "abab", bytes "=beta") ∧
    (handleServiceEntry [deviceTracer 0] thisDevice ownEntryWithStrayKey []).1.devices
      = [(bytes "abab",
          discoveredDevice ownEntryWithStrayKey [192, 168, 1, 7] (bytes "abab"))] ∧
    (handleServiceEntry [deviceTracer 0] thisDevice ownEntryWithStrayKey []).2
      = [(0, discoveredDevice ownEntryWithStrayKey [192, 168, 1, 7] (bytes "abab"))] ∧
    handleServiceEntry [deviceTracer 0] thisDevice selfEntry [] = (thisDevice, []) := by
  decide

/-- C18 fails in the code: the loop tests the first 10 (or 11) bytes only and cuts at a
fixed width.  The string `account_idX=foo`, whose key is `account_idX`, gives the account
id `=foo`, and the device is published under it; `device_names=bar` gives the device name
`=bar`; and `account_idZ` after `account_id=abab` wipes the account id.  Read as key=value
pairs the same strings give no account id, no device name, and `abab`.  The strings that
`Start` registers are read back as written, in either order. -/
theorem extractTXT_reads_other_keys :
    extractTXT [bytes "account_idX=foo"] = (bytes "=foo", bytes "") ∧
    txtValue (bytes "account_id") [bytes "account_idX=foo"] = bytes "" ∧
    (handleServiceEntry [deviceTracer 0] thisDevice strayKeyEntry []).1.devices.map Prod.fst
      = [bytes "=foo"] ∧
    extractTXT [bytes "device_names=bar"] = (bytes "", bytes "=bar") ∧
    txtValue (bytes "device_name") [bytes "device_names=bar"] = bytes "" ∧
    extractTXT [bytes "account_id=abab", bytes "account_idZ"] = (bytes "", bytes "") ∧
    txtValue (bytes "account_id") [bytes "account_id=abab", bytes "account_idZ"]
      = bytes "abab" ∧
    extractTXT (txtRecords (NewDiscoveryManager (bytes "abab") (bytes "beta")))
      = (bytes "abab", bytes "beta") ∧
    extractTXT [bytes "device_name=beta", bytes "account_id=abab"]
      = (bytes "abab", bytes "beta") := by
  decide

/-! ## The store lock under the engine's callback -/

/-- C19 fails in the code: with the callback registered by `setupCallbacks`, the create of
`diary_entries/demo-1` on the fresh store never returns and leaves the lock held, so that a
later `GetRecord` or `DeleteRecord` never returns either; an update of a live record never
returns; only a delete, for which the callback does not read the store, returns. -/
theorem engine_mutations_wait_for_own_lock :
    (CreateRecord engineCallbacks NewMemoryStorageManager ⟨1000⟩ "diary_entries" "demo-1"
        [("title", "\"t\"")] []).ret = none ∧
    (CreateRecord engineCallbacks NewMemoryStorageManager ⟨1000⟩ "diary_entries" "demo-1"
        [("title", "\"t\"")] []).sm.recordsMux = true ∧
    GetRecord (CreateRecord engineCallbacks NewMemoryStorageManager ⟨1000⟩ "diary_entries"
        "demo-1" [("title", "\"t\"")] []).sm "diary_entries" "demo-1" = none ∧
    (DeleteRecord engineCallbacks
        (CreateRecord engineCallbacks NewMemoryStorageManager ⟨1000⟩ "diary_entries"
          "demo-1" [("title", "\"t\"")] []).sm ⟨2000⟩ "diary_entries" "demo-1" []).ret
      = none ∧
    (UpdateRecord engineCallbacks demoStore ⟨1000⟩ "diary_entries" "demo-1" [] []).ret
      = none ∧
    (DeleteRecord engineCallbacks demoStore ⟨1000⟩ "diary_entries" "demo-1" []).ret
      = some (.ok ()) :=
  ⟨by rfl, by rfl, by rfl, by rfl, by rfl, by rfl⟩

/-! ## The connection map when a session is replaced -/

/-- C20 fails in the code: two dials for the account `abab` leave the newer session, on
connection 2, under the key; when the read loop of the prior session, on connection 1,
ends on a read error, the deferred delete removes the entry under `abab`, which is the
newer session, and the map is empty. -/
theorem prior_session_end_removes_newer :
    (ConnectToDevice (ConnectToDevice (NewSyncManager "abab" "") (some 1) "abab" ⟨1000⟩)
        (some 2) "abab" ⟨2000⟩).connections = [("abab", newerSession)] ∧
    priorSession ≠ newerSession ∧
    (handleConnection "abab" demoUnmarshal demoAsSyncData ([] : List (SyncCallback Unit))
        priorSession [(.error, ⟨3000⟩)] [("abab", newerSession)] () ⟨1000⟩).status
      = .closed ∧
    (handleConnection "abab" demoUnmarshal demoAsSyncData ([] : List (SyncCallback Unit))
        priorSession [(.error, ⟨3000⟩)] [("abab", newerSession)] () ⟨1000⟩).connections
      = [] ∧
    mapGet (handleConnection "abab" demoUnmarshal demoAsSyncData
        ([] : List (SyncCallback Unit)) priorSession [(.error, ⟨3000⟩)]
        [("abab", newerSession)] () ⟨1000⟩).connections "abab" = none := by
  decide

/-! ## The storage key and the pair it stands for -/

/-- A read of the map returns an entry of the map. -/
theorem mem_of_mapGet {V : Type} (m : List (String × V)) (key : String) (v : V)
    (h : mapGet m key = some v) : (key, v) ∈ m := by
  induction m with
  | nil => simp [mapGet] at h
  | cons q rest ih =>
    obtain ⟨k, r⟩ := q
    by_cases hk : k = key
    · simp only [mapGet, hk, if_true, Option.some.injEq] at h
      subst hk
      subst h
      exact List.mem_cons_self _ _
    · simp only [mapGet, hk, if_false] at h
      exact List.mem_cons_of_mem _ (ih h)

/-- A list cut at its first colon can be cut in one way only. -/
theorem append_colon_inj (t₁ t₂ i₁ i₂ : List Char) (h₁ : ':' ∉ t₁) (h₂ : ':' ∉ t₂)
    (h : t₁ ++ ':' :: i₁ = t₂ ++ ':' :: i₂) : t₁ = t₂ ∧ i₁ = i₂ := by
  rcases List.append_eq_append_iff.mp h with ⟨m, hl, hd⟩ | ⟨m, hl, hd⟩
  · cases m with
    | nil => simp at hl hd; exact ⟨hl.symm, hd⟩
    | cons x m =>
      simp only [List.cons_append, List.cons.injEq] at hd
      rw [hl, ← hd.1] at h₂
      exact absurd (List.mem_append_right t₁ (List.mem_cons_self _ _)) h₂
  · cases m with
    | nil => simp at hl hd; exact ⟨hl, hd.symm⟩
    | cons x m =>
      simp only [List.cons_append, List.cons.injEq] at hd
      rw [hl, ← hd.1] at h₁
      exact absurd (List.mem_append_right t₂ (List.mem_cons_self _ _)) h₁

/-- Between tables that contain no colon, the key tells the pair. -/
theorem recordKey_inj_of_no_colon (t₁ t₂ i₁ i₂ : String) (h₁ : ':' ∉ t₁.toList)
    (h₂ : ':' ∉ t₂.toList) (h : recordKey t₁ i₁ = recordKey t₂ i₂) : t₁ = t₂ ∧ i₁ = i₂ := by
  have hd := congrArg String.data h
  simp only [recordKey, String.data_append, List.append_assoc, List.singleton_append] at hd
  obtain ⟨ht, hi⟩ := append_colon_inj _ _ _ _ h₁ h₂ hd
  exact ⟨String.ext ht, String.ext hi⟩

/-- In every store reached from the empty store, the record `GetRecord(table, id)` returns
has a table and an id that build the same key as `table` and `id`; they are `table` and
`id` themselves when neither table contains a colon. -/
theorem GetRecord_reached_key {ω : Type} (callbacks : List (Callback ω))
    (calls : List (StoreCall × Time)) (w : ω) (table id : String) (r : Record)
    (h : GetRecord (runCalls callbacks calls NewMemoryStorageManager w).1 table id
      = some (.ok r)) :
    recordKey r.Table r.ID = recordKey table id ∧
    (':' ∉ table.toList → ':' ∉ r.Table.toList → r.Table = table ∧ r.ID = id) := by
  have hinv : StoreInv (runCalls callbacks calls NewMemoryStorageManager w).1.records :=
    StoreInv_runCalls callbacks calls _ w StoreInv_nil
  generalize (runCalls callbacks calls NewMemoryStorageManager w).1 = sm at h hinv
  obtain ⟨recs, mux⟩ := sm
  cases mux with
  | true => simp [GetRecord] at h
  | false =>
    cases hg : mapGet recs (recordKey table id) with
    | none => simp [GetRecord, hg] at h
    | some e =>
      simp only [GetRecord, hg, record_copy_eq] at h
      have he : e = r := by simpa using h
      subst he
      have hkey : recordKey e.Table e.ID = recordKey table id :=
        (hinv.2 _ (mem_of_mapGet _ _ _ hg)).symm
      exact ⟨hkey, fun h₁ h₂ => recordKey_inj_of_no_colon _ _ _ _ h₂ h₁ hkey⟩

/-- C11 fails in the code: in the store after the create of (`a:b`, `c`) no record of
table `a` and id `b:c` is stored, live or deleted, and yet `UpdateRecord("a", "b:c", _)`
does not return the not-found error.  It finds the record of (`a:b`, `c`) under the key
`a:b:c` that the two pairs share, returns a record of table `a` and id `b:c` with the
`created_at` of that record, and stores it in its place: `GetRecord("a:b", "c")` then
returns a record of table `a`, and the table `a:b` has no record left. -/
theorem UpdateRecord_updates_other_pair :
    recordKey "a" "b:c" = recordKey "a:b" "c" ∧
    colonStore.recordsMux = false ∧
    colonStore.records = [("a:b:c", createdRecord ⟨100⟩ "a:b" "c" [("n", "1")])] ∧
    (∀ p ∈ colonStore.records, ¬ (p.2.Table = "a" ∧ p.2.ID = "b:c")) ∧
    (UpdateRecord ([] : List (Callback Unit)) colonStore ⟨200⟩ "a" "b:c" [("n", "2")] ()).ret
      ≠ some (.error (.notFound "a" "b:c")) ∧
    (UpdateRecord ([] : List (Callback Unit)) colonStore ⟨200⟩ "a" "b:c" [("n", "2")] ()).ret
      = some (.ok (updatedRecord ⟨200⟩ "a" "b:c" [("n", "2")]
          (createdRecord ⟨100⟩ "a:b" "c" [("n", "1")]))) ∧
    (updatedRecord ⟨200⟩ "a" "b:c" [("n", "2")]
        (createdRecord ⟨100⟩ "a:b" "c" [("n", "1")])).CreatedAt = ⟨100⟩ ∧
    (UpdateRecord ([] : List (Callback Unit)) colonStore ⟨200⟩ "a" "b:c" [("n", "2")]
        ()).sm.records
      = [("a:b:c", updatedRecord ⟨200⟩ "a" "b:c" [("n", "2")]
          (createdRecord ⟨100⟩ "a:b" "c" [("n", "1")]))] ∧
    GetRecord (UpdateRecord ([] : List (Callback Unit)) colonStore ⟨200⟩ "a" "b:c"
        [("n", "2")] ()).sm "a:b" "c"
      = some (.ok (updatedRecord ⟨200⟩ "a" "b:c" [("n", "2")]
          (createdRecord ⟨100⟩ "a:b" "c" [("n", "1")]))) ∧
    GetAllRecords colonStore "a:b" = some [createdRecord ⟨100⟩ "a:b" "c" [("n", "1")]] ∧
    GetAllRecords (UpdateRecord ([] : List (Callback Unit)) colonStore ⟨200⟩ "a" "b:c"
        [("n", "2")] ()).sm "a:b" = some [] :=
  ⟨by decide, rfl, by decide, by decide, (fun h => by cases h), by rfl, rfl,
    by decide, by rfl, by rfl, by rfl⟩

/-- C12 fails in the code: in the store after the create of (`a:b`, `c`) no record of
table `a` and id `b:c` is stored, live or deleted, and yet `DeleteRecord("a", "b:c")` does
not return the not-found error.  It finds the live record of (`a:b`, `c`) under the key
`a:b:c` that the two pairs share, returns without error, and stores in its place a
tombstone of table `a` and id `b:c`: the record of (`a:b`, `c`), which no call deleted, is
no longer among the live records of its table. -/
theorem DeleteRecord_deletes_other_pair :
    recordKey "a" "b:c" = recordKey "a:b" "c" ∧
    colonStore.recordsMux = false ∧
    colonStore.records = [("a:b:c", createdRecord ⟨100⟩ "a:b" "c" [("n", "1")])] ∧
    (∀ p ∈ colonStore.records, ¬ (p.2.Table = "a" ∧ p.2.ID = "b:c")) ∧
    (DeleteRecord ([] : List (Callback Unit)) colonStore ⟨200⟩ "a" "b:c" ()).ret
      ≠ some (.error (.notFound "a" "b:c")) ∧
    (DeleteRecord ([] : List (Callback Unit)) colonStore ⟨200⟩ "a" "b:c" ()).ret
      = some (.ok ()) ∧
    (DeleteRecord ([] : List (Callback Unit)) colonStore ⟨200⟩ "a" "b:c" ()).sm.records
      = [("a:b:c", tombstoneRecord ⟨200⟩ "a" "b:c"
          (createdRecord ⟨100⟩ "a:b" "c" [("n", "1")]))] ∧
    GetRecord (DeleteRecord ([] : List (Callback Unit)) colonStore ⟨200⟩ "a" "b:c" ()).sm
        "a:b" "c"
      = some (.ok (tombstoneRecord ⟨200⟩ "a" "b:c"
          (createdRecord ⟨100⟩ "a:b" "c" [("n", "1")]))) ∧
    GetAllRecords colonStore "a:b" = some [createdRecord ⟨100⟩ "a:b" "c" [("n", "1")]] ∧
    GetAllRecords (DeleteRecord ([] : List (Callback Unit)) colonStore ⟨200⟩ "a" "b:c"
        ()).sm "a:b" = some [] :=
  ⟨by decide, rfl, by decide, by decide, (fun h => by cases h), by rfl, by decide,
    by rfl, by rfl, by rfl⟩

/-- C21 fails in the code: the pairs (`a:b`, `c`) and (`a`, `b:c`) build the same key
`a:b:c`.  After the create of (`a:b`, `c`) on the empty store, `GetRecord("a", "b:c")`
returns the record of table `a:b` and id `c`, and `CreateRecord("a", "b:c", _)` returns
the already-exists error although no record of table `a` is stored. -/
theorem recordKey_shared_by_two_pairs :
    ("a:b", "c") ≠ ("a", "b:c") ∧
    recordKey "a:b" "c" = recordKey "a" "b:c" ∧
    (runCalls ([] : List (Callback Unit)) colonCreate NewMemoryStorageManager ()).1.records
      = [("a:b:c", createdRecord ⟨100⟩ "a:b" "c" [("n", "1")])] ∧
    GetRecord (runCalls ([] : List (Callback Unit)) colonCreate NewMemoryStorageManager ()).1
        "a" "b:c" = some (.ok (createdRecord ⟨100⟩ "a:b" "c" [("n", "1")])) ∧
    (createdRecord ⟨100⟩ "a:b" "c" [("n", "1")]).Table ≠ "a" ∧
    (createdRecord ⟨100⟩ "a:b" "c" [("n", "1")]).ID ≠ "b:c" ∧
    (CreateRecord ([] : List (Callback Unit))
        (runCalls ([] : List (Callback Unit)) colonCreate NewMemoryStorageManager ()).1
        ⟨200⟩ "a" "b:c" [] ()).ret = some (.error (.alreadyExists "a" "b:c")) ∧
    (∀ p ∈ (runCalls ([] : List (Callback Unit)) colonCreate NewMemoryStorageManager
        ()).1.records, p.2.Table ≠ "a") :=
  ⟨by decide, by decide, by decide, by rfl, by decide, by decide, by rfl, by decide⟩

end MySpaceSync
